import Mathlib

/-!
Verification of the Discogs → Shopify sync engine.

The repository carries two revisions of the same script:
* `src/sync.js` ("Easy Mode", the current revision), embedded in namespace `Sync`;
* `src/unnamed/part_000` (an earlier revision of sync.js), embedded in
  namespace `SyncV0`.

JavaScript values that may be `undefined` are modelled as `Option`;
the truthiness coercions (`x || y`, `!x`, template-literal stringification
of `undefined`) are embedded explicitly by the `js*` helpers below.
Thrown exceptions are modelled with `Except String`.  The state of the
Shopify store that the script manipulates through REST calls is modelled
by the `Catalog` structure; each REST endpoint used by the script becomes
a function on `Catalog`.
-/

set_option maxHeartbeats 1000000
set_option maxRecDepth 4000

/-- JS template-literal stringification: `undefined` prints as "undefined". -/
def jsStr (o : Option String) : String :=
  match o with
  | none => "undefined"
  | some s => s

/-- JS truthiness for a possibly-undefined string: `undefined` and `""` are
falsy.  Normalises to an `Option` whose `some` values are truthy. -/
def truthyS (o : Option String) : Option String :=
  match o with
  | none => none
  | some s => if s = "" then none else some s

/-- JS `x || d` for a possibly-undefined string `x` and a string default. -/
def jsOrS (o : Option String) (d : String) : String :=
  match truthyS o with
  | none => d
  | some s => s

/-- JS truthiness for a possibly-undefined number: `undefined` and `0` are falsy. -/
def truthyI (o : Option Int) : Option Int :=
  match o with
  | none => none
  | some n => if n = 0 then none else some n

/-- `String.toLowerCase` over the character list (the position-based core
`String.toLower` does not reduce in the kernel). -/
def sToLower (s : String) : String :=
  String.mk (s.toList.map Char.toLower)

/-- `String.prototype.trim`: strip whitespace from both ends. -/
def sTrim (s : String) : String :=
  String.mk (((s.toList.dropWhile Char.isWhitespace).reverse.dropWhile
    Char.isWhitespace).reverse)

/-- `full.split('.')`. -/
def splitOnDot (s : String) : List String :=
  (s.toList.splitOn '.').map String.mk

/-! ### slugify

`slugify` in sync.js is
`(s || '').toString().toLowerCase().replace(/[^a-z0-9]+/g, '-').replace(/(^-|-$)/g, '')`.
The first regex replaces every maximal run of characters outside `[a-z0-9]`
by a single hyphen; equivalently, each such character is replaced by a
hyphen and adjacent hyphens are then collapsed (a literal hyphen is itself
outside `[a-z0-9]`, so it always belongs to such a run).  The second regex
strips one leading and one trailing hyphen. -/

/-- Membership in the character class `[a-z0-9]`. -/
def isSlugChar (c : Char) : Bool :=
  ('a' ≤ c && c ≤ 'z') || ('0' ≤ c && c ≤ '9')

/-- Replace each character outside `[a-z0-9]` with a hyphen. -/
def hyphenate (l : List Char) : List Char :=
  l.map (fun c => if isSlugChar c then c else '-')

/-- Collapse adjacent hyphens into one (together with `hyphenate` this is
`replace(/[^a-z0-9]+/g, '-')`). -/
def collapse : List Char → List Char
  | [] => []
  | a :: rest =>
    match collapse rest with
    | [] => [a]
    | b :: r => if a = '-' ∧ b = '-' then b :: r else a :: b :: r

/-- Strip one leading hyphen (the `^-` alternative of the second regex). -/
def dropLeadingHyphen (l : List Char) : List Char :=
  match l with
  | [] => []
  | c :: rest => if c = '-' then rest else l

/-- Strip one trailing hyphen (the `-$` alternative of the second regex). -/
def dropTrailingHyphen (l : List Char) : List Char :=
  if l.getLast? = some '-' then l.dropLast else l

/-- `replace(/(^-|-$)/g, '')`. -/
def stripEnds (l : List Char) : List Char :=
  dropTrailingHyphen (dropLeadingHyphen l)

/-- The slug pipeline on a (defined) string:
lowercase, collapse non-alphanumeric runs to hyphens, strip end hyphens. -/
def slugCore (s : String) : String :=
  String.mk (stripEnds (collapse (hyphenate (sToLower s).toList)))

/-- A character allowed in a slug output: `[a-z0-9-]`. -/
def isSlugOut (c : Char) : Bool :=
  isSlugChar c || c == '-'

/-- Boolean check that a string is a well-formed slug output: every
character in `[a-z0-9-]`, no leading hyphen, no trailing hyphen. -/
def slugOutOk (s : String) : Bool :=
  s.toList.all isSlugOut
    && !(s.toList.head? == some '-')
    && !(s.toList.getLast? == some '-')

/-! ### Pure transform helpers shared by both revisions (identical code). -/

/-- `grade.replace(/\s+/g,'')`: remove all whitespace. -/
def stripWs (s : String) : String :=
  String.mk (s.toList.filter (fun c => !c.isWhitespace))

/-- `mapGradeTag`: `if (!grade) return null; return `grade:${grade.replace(/\s+/g,'')}`;` -/
def mapGradeTag (grade : Option String) : Option String :=
  match truthyS grade with
  | none => none
  | some g => some ("grade:" ++ stripWs g)

structure Artist where
  name : String
deriving Repr, DecidableEq

/-- `buildTitle`: joins artist names with ", ", then joins to the release
title with an en-dash; with no (or empty) artist string the raw title is
returned unchanged (and may therefore be `undefined`). -/
def buildTitle (artistList : Option (List Artist)) (title : Option String) : Option String :=
  let artist :=
    match artistList with
    | none => ""
    | some l => if l.length = 0 then "" else String.intercalate ", " (l.map Artist.name)
  if artist = "" then title else some (artist ++ " – " ++ jsStr title)

/-! ### Discogs data model (fields as read by the scripts). -/

structure FormatInfo where
  name : Option String
  descriptions : Option (List String)
deriving Repr, DecidableEq

structure LabelInfo where
  name : Option String
deriving Repr, DecidableEq

structure DiscogsImage where
  resource_url : Option String
deriving Repr, DecidableEq

structure BasicInfo where
  id : Option Int
  master_id : Option Int
  title : Option String
  artists : Option (List Artist)
  year : Option Int
  labels : Option (List LabelInfo)
  catno : Option String
  barcode : Option String
  formats : Option (List FormatInfo)
  cover_image : Option String
  thumb : Option String
  images : Option (List DiscogsImage)
deriving Repr, DecidableEq

structure Item where
  instance_id : Option Int
  basic_information : Option BasicInfo
  media_condition : Option String
  sleeve_condition : Option String
  notes : Option String
deriving Repr, DecidableEq

/-! ### Shopify catalog model.

State touched by the scripts through the Shopify Admin REST API.
`nextProductId` / `nextMetafieldId` model the server's id allocation. -/

structure Variant where
  sku : String
  price : String
  barcode : Option String
deriving Repr, DecidableEq

structure Metafield where
  id : Nat
  ns : String   -- the JSON field is `namespace`, a reserved word in Lean
  key : String
  type : String
  value : String
deriving Repr, DecidableEq

structure Product where
  id : Nat
  title : Option String
  body_html : String
  handle : String
  status : String
  tags : String
  vendor : String
  product_type : String
  variants : List Variant
  images : List String
  metafields : List Metafield
deriving Repr, DecidableEq

structure CustomCollection where
  id : Nat
  handle : String
deriving Repr, DecidableEq

structure Collect where
  product_id : Nat
  collection_id : Nat
deriving Repr, DecidableEq

structure Catalog where
  products : List Product
  customCollections : List CustomCollection
  collects : List Collect
  nextProductId : Nat
  nextMetafieldId : Nat
deriving Repr, DecidableEq

def emptyCatalog : Catalog :=
  { products := [], customCollections := [], collects := [],
    nextProductId := 1, nextMetafieldId := 1 }

/-- Environment-derived configuration of one run. -/
structure Config where
  defaultStatus : String
  collectionHandle : Option String
deriving Repr, DecidableEq

/-- Payload of `POST /products.json` as built by the scripts. -/
structure ProductPayload where
  title : Option String
  body_html : String
  handle : String
  status : String
  tags : String
  vendor : String
  product_type : String
  variants : List Variant
  images : List String
deriving Repr, DecidableEq

/-! ### Shopify REST endpoints as functions on `Catalog`. -/

/-- The `namespace.key` composite under which the scripts index metafields. -/
def fullKeyOf (m : Metafield) : String :=
  m.ns ++ "." ++ m.key

/-- Metafields of a list carrying a given `namespace.key`. -/
def fullEntries (l : List Metafield) (full : String) : List Metafield :=
  l.filter (fun m => fullKeyOf m == full)

/-- The metafield a `new Map(...)` index resolves `full` to: with duplicate
keys the later entry wins, i.e. the last matching metafield. -/
def lastMatch (l : List Metafield) (full : String) : Option Metafield :=
  (fullEntries l full).getLast?

/-- `GET /products/{pid}/metafields.json`: metafields of the product with
the given id (empty when no such product exists). -/
def mfsOf (st : Catalog) (pid : Nat) : List Metafield :=
  match st.products.find? (fun q => q.id == pid) with
  | none => []
  | some q => q.metafields

/-- The value the store reports for `namespace.key` composite `full` on
product `pid` (last entry wins, as in the scripts' index). -/
def mfValue (st : Catalog) (pid : Nat) (full : String) : Option String :=
  (lastMatch (mfsOf st pid) full).map Metafield.value

/-- The tag string of the product with id `pid`. -/
def productTags (st : Catalog) (pid : Nat) : Option String :=
  (st.products.find? (fun q => q.id == pid)).map Product.tags

/-- Number of products having a variant with the given SKU. -/
def countSku (st : Catalog) (sku : String) : Nat :=
  (st.products.filter (fun q => q.variants.any (fun v => v.sku == sku))).length

/-- `PUT /metafields/{mid}.json` with a new value. -/
def putMetafieldValue (mid : Nat) (v : String) (st : Catalog) : Catalog :=
  { st with products := st.products.map (fun q =>
      { q with metafields := q.metafields.map (fun m =>
          if m.id == mid then { m with value := v } else m) }) }

/-- `POST /products/{pid}/metafields.json`: create a metafield on product
`pid`; the server allocates the next metafield id. -/
def postMetafield (pid : Nat) (ns key ty v : String) (st : Catalog) : Catalog :=
  { st with
    products := st.products.map (fun q =>
      if q.id == pid then
        { q with metafields := q.metafields ++
            [{ id := st.nextMetafieldId, ns := ns, key := key, type := ty, value := v }] }
      else q),
    nextMetafieldId := st.nextMetafieldId + 1 }

/-- `PUT /products/{pid}.json` with body `{ product: { id, tags } }`:
the minimal update patch both revisions submit on the update path. -/
def updateProductTags (pid : Nat) (tags : String) (st : Catalog) : Catalog :=
  { st with products := st.products.map (fun q =>
      if q.id == pid then { q with tags := tags } else q) }

/-- The fragment of the 422 body that the create-retry logic matches on. -/
def handleTakenMarker : String :=
  "\"handle\":[\"has already been taken\"]"

/-- The error thrown by `shopifyRest` for a handle collision on create
(body abbreviated to the fragment the client matches on). -/
def handleTakenError : String :=
  "Shopify POST /products.json -> 422: " ++ handleTakenMarker

/-- `POST /products.json`: Shopify rejects a product whose explicit handle
is already taken by another product; otherwise it stores the product with
a fresh id and no metafields. -/
def createdProduct (pl : ProductPayload) (st : Catalog) : Product :=
  { id := st.nextProductId, title := pl.title, body_html := pl.body_html,
    handle := pl.handle, status := pl.status, tags := pl.tags,
    vendor := pl.vendor, product_type := pl.product_type,
    variants := pl.variants, images := pl.images, metafields := [] }

def createdCatalog (pl : ProductPayload) (st : Catalog) : Catalog :=
  { st with products := st.products ++ [createdProduct pl st],
            nextProductId := st.nextProductId + 1 }

def createProduct (pl : ProductPayload) (st : Catalog) : Except String (Product × Catalog) :=
  if st.products.any (fun q => q.handle == pl.handle) then
    .error handleTakenError
  else
    .ok (createdProduct pl st, createdCatalog pl st)

/-- `addToCollectionByHandle` (sync.js): no-op without a truthy handle or a
matching custom collection; otherwise `POST /collects.json`.  Errors are
swallowed by the caller; the model has none. -/
def addToCollectionByHandle (handle : Option String) (pid : Nat) (st : Catalog) : Catalog :=
  match truthyS handle with
  | none => st
  | some h =>
    match st.customCollections.find? (fun c => c.handle == h) with
    | none => st
    | some c =>
      { st with collects := st.collects ++ [{ product_id := pid, collection_id := c.id }] }

/-- JS `String.prototype.includes` on character lists. -/
def hasInfixChars (pat : List Char) : List Char → Bool
  | [] => pat.isEmpty
  | c :: rest => pat.isPrefixOf (c :: rest) || hasInfixChars pat rest

/-- JS `String.prototype.includes`. -/
def hasSubstr (s pat : String) : Bool :=
  hasInfixChars pat.toList s.toList

/-! ## The current revision, `src/sync.js`. -/

namespace Sync

/-- `slugify` (sync.js): `(s || '').toString().toLowerCase()...` — total,
an undefined argument is coerced to the empty string first. -/
def slugify (s : Option String) : String :=
  slugCore (jsOrS s "")

/-- `collectImageUrls` (sync.js): cover image, thumbnail, then gallery
entries with a truthy `resource_url`, deduplicated in insertion order
(a JS `Set` keeps the first occurrence). -/
def addUnique (l : List String) (x : String) : List String :=
  if x ∈ l then l else l ++ [x]

def collectImageUrls : Option BasicInfo → List String
  | none => []
  | some b =>
    let l1 := match truthyS b.cover_image with
      | some u => addUnique [] u
      | none => []
    let l2 := match truthyS b.thumb with
      | some u => addUnique l1 u
      | none => l1
    (b.images.getD []).foldl (fun acc img =>
      match truthyS img.resource_url with
      | some u => addUnique acc u
      | none => acc) l2

/-- The `body_html` string: format names, first label name, year — absent
parts skipped, joined by " • ". -/
def bodyHtmlOf (basic : Option BasicInfo) : String :=
  let formatsPart :=
    String.intercalate ", "
      (((basic.bind BasicInfo.formats).getD []).filterMap (fun f => truthyS f.name))
  let labelPart := truthyS ((basic.bind BasicInfo.labels).bind (fun ls => ls.head?)
      |>.bind LabelInfo.name)
  let yearPart := (truthyI (basic.bind BasicInfo.year)).map (fun y => "Year: " ++ toString y)
  String.intercalate " • "
    ((if formatsPart = "" then [] else [formatsPart]) ++ labelPart.toList ++ yearPart.toList)

/-- `item.instance_id?.toString()`. -/
def instanceIdOf (item : Item) : Option String :=
  item.instance_id.map toString

/-- `` `DCG-${instanceId}` ``. -/
def skuOf (item : Item) : String :=
  "DCG-" ++ jsStr (instanceIdOf item)

/-- `buildTitle(basic?.artists, basic?.title)`. -/
def titleOf (item : Item) : Option String :=
  buildTitle (item.basic_information.bind BasicInfo.artists)
    (item.basic_information.bind BasicInfo.title)

/-- `` slugify(`${title}-${instanceId}`) ``. -/
def handleOf (item : Item) : String :=
  slugify (some (jsStr (titleOf item) ++ "-" ++ jsStr (instanceIdOf item)))

/-- `item.media_condition || null`. -/
def mediaGradeOf (item : Item) : Option String :=
  truthyS item.media_condition

/-- `item.sleeve_condition || null`. -/
def sleeveGradeOf (item : Item) : Option String :=
  truthyS item.sleeve_condition

/-- `[gradeTag, sleeveTag, 'source:discogs'].filter(Boolean)`. -/
def tagListOf (item : Item) : List String :=
  (mapGradeTag (mediaGradeOf item)).toList
    ++ ((sleeveGradeOf item).map (fun g => "sleeve:" ++ stripWs g)).toList
    ++ ["source:discogs"]

/-- The freshly computed tag string (comma-joined tag set). -/
def tagsStringOf (item : Item) : String :=
  String.intercalate ", " (tagListOf item)

/-- The fixed namespaced key/value map passed to the metafield upsert. -/
def kvMap (item : Item) : List (String × Option String) :=
  let basic := item.basic_information
  [ ("discogs.release_id", (basic.bind BasicInfo.id).map toString),
    ("discogs.master_id", some (match truthyI (basic.bind BasicInfo.master_id) with
      | some n => toString n
      | none => "")),
    ("discogs.media_condition", some (jsOrS (mediaGradeOf item) "")),
    ("discogs.sleeve_condition", some (jsOrS (sleeveGradeOf item) "")),
    ("discogs.notes", some (jsOrS item.notes "")),
    ("discogs.catalog_number", some (jsOrS (basic.bind BasicInfo.catno) "")),
    ("discogs.label", some (jsOrS ((basic.bind BasicInfo.labels).bind (fun ls => ls.head?)
        |>.bind LabelInfo.name) "")),
    ("discogs.format", some (String.intercalate ", "
      (((basic.bind BasicInfo.formats).getD []).map (fun f =>
        String.intercalate " "
          ((truthyS f.name).toList ++ (f.descriptions.getD []).filter (fun d => !(d == ""))))))),
    ("discogs.year", some (jsOrS ((basic.bind BasicInfo.year).map toString) "")),
    ("discogs.barcode", some (jsOrS (basic.bind BasicInfo.barcode) "")),
    ("discogs.instance_id", instanceIdOf item) ]

/-- `findProductBySkuOrMetafield` (sync.js): exact-SKU variant query; the
first matching variant's product is fetched. -/
def findProductBySkuOrMetafield (sku : String) (st : Catalog) : Option Product :=
  st.products.find? (fun p => p.variants.any (fun v => v.sku == sku))

/-- One iteration of the metafield upsert loop (sync.js): skip blank
trimmed values; update the existing entry found in the index taken at loop
entry, else create the entry. -/
def upsertStep (idx : List Metafield) (pid : Nat) (st : Catalog)
    (e : String × Option String) : Catalog :=
  let value := sTrim (e.2.getD "")
  if value = "" then st
  else
    let parts := splitOnDot e.1
    let ns := parts.headD ""
    let key := (parts.drop 1).headD ""
    let ty := if key = "notes" then "multi_line_text_field" else "single_line_text_field"
    match lastMatch idx e.1 with
    | some m => putMetafieldValue m.id value st
    | none => postMetafield pid ns key ty value st

def upsertLoop (idx : List Metafield) (pid : Nat) (st : Catalog) :
    List (String × Option String) → Catalog
  | [] => st
  | e :: rest => upsertLoop idx pid (upsertStep idx pid st e) rest

/-- `upsertProductMetafields` (sync.js): the index of existing metafields
is read once, then each field is processed in order. -/
def upsertProductMetafields (pid : Nat) (kv : List (String × Option String))
    (st : Catalog) : Catalog :=
  upsertLoop (mfsOf st pid) pid st kv

/-- The create payload of sync.js ("Easy Mode"). -/
def createPayloadOf (cfg : Config) (item : Item) : ProductPayload :=
  { title := titleOf item,
    body_html := bodyHtmlOf item.basic_information,
    handle := handleOf item,
    status := cfg.defaultStatus,
    tags := tagsStringOf item,
    vendor := jsOrS ((item.basic_information.bind BasicInfo.labels).bind (fun ls => ls.head?)
        |>.bind LabelInfo.name) "Unknown Label",
    product_type := "Vinyl",
    variants := [{ sku := skuOf item, price := "0.00",
                   barcode := truthyS (item.basic_information.bind BasicInfo.barcode) }],
    images := (collectImageUrls item.basic_information).take 8 }

/-- The `try { POST } catch (e) { if (msg includes handle-taken) retry once
with `${handle}-${sku.toLowerCase()}` else rethrow }` block, over an
arbitrary outcome of each POST attempt. -/
def createWithHandleRetry (attempt : String → Except String (Product × Catalog))
    (handle sku : String) : Except String (Product × Catalog) :=
  match attempt handle with
  | .ok r => .ok r
  | .error e =>
    if hasSubstr e handleTakenMarker then
      attempt (handle ++ "-" ++ sToLower sku)
    else
      .error e

/-- `ensureProductFromDiscogsItem` (sync.js): the reconcile operation. -/
def ensureProductFromDiscogsItem (cfg : Config) (item : Item) (st : Catalog) :
    Except String (Product × Catalog) :=
  let sku := skuOf item
  let tags := tagsStringOf item
  match findProductBySkuOrMetafield sku st with
  | none =>
    let payload := createPayloadOf cfg item
    match createWithHandleRetry
        (fun h => createProduct { payload with handle := h } st)
        (handleOf item) sku with
    | .error e => .error e
    | .ok (p, st1) =>
      let st2 := upsertProductMetafields p.id (kvMap item) st1
      let st3 := addToCollectionByHandle cfg.collectionHandle p.id st2
      .ok (p, st3)
  | some existing =>
    let st1 := updateProductTags existing.id tags st
    let st2 := upsertProductMetafields existing.id (kvMap item) st1
    let st3 := addToCollectionByHandle cfg.collectionHandle existing.id st2
    .ok (existing, st3)

/-! ### Pagination driver (sync.js). -/

structure Pagination where
  pages : Nat
deriving Repr, DecidableEq

structure DiscogsResponse where
  releases : List Item
  pagination : Option Pagination
deriving Repr, DecidableEq

/-- Run state: the catalog plus the module-level failure accumulator
(`failCount`, `failures`) and the trace of requested page numbers. -/
structure SyncState where
  catalog : Catalog
  failCount : Nat
  failures : List (Option Int × String)
  requested : List Nat
deriving Repr, DecidableEq

/-- The per-page item loop: each item is reconciled; an error is caught and
recorded as `{ instance: item?.instance_id, msg: e.message }`. -/
def processItems (cfg : Config) : List Item → SyncState → SyncState
  | [], s => s
  | item :: rest, s =>
    match ensureProductFromDiscogsItem cfg item s.catalog with
    | .ok (_, st') => processItems cfg rest { s with catalog := st' }
    | .error e => processItems cfg rest
        { s with failCount := s.failCount + 1,
                 failures := s.failures ++ [(item.instance_id, e)] }

/-- The `while (true)` page loop of `syncFolder`, fuelled for termination;
`fetch page` models the Discogs response for that page number.  A page is
recorded in `requested` when it is fetched. -/
def syncFolderLoop (cfg : Config) (fetch : Nat → DiscogsResponse) :
    Nat → Nat → SyncState → Option SyncState
  | 0, _, _ => none
  | fuel + 1, page, s =>
    let data := fetch page
    let s1 := processItems cfg data.releases { s with requested := s.requested ++ [page] }
    match data.pagination with
    | none => some s1
    | some pg => if pg.pages ≤ page then some s1
        else syncFolderLoop cfg fetch fuel (page + 1) s1

/-- `syncFolder(folderId)`: start at page 1. -/
def syncFolder (cfg : Config) (fetch : Nat → DiscogsResponse) (fuel : Nat)
    (s : SyncState) : Option SyncState :=
  syncFolderLoop cfg fetch fuel 1 s

/-- Fresh run state over a catalog. -/
def initState (st : Catalog) : SyncState :=
  { catalog := st, failCount := 0, failures := [], requested := [] }

end Sync

/-! ## The earlier revision, `src/unnamed/part_000`. -/

namespace SyncV0

/-- `slugify` (part_000): `s.toLowerCase()...` — no `(s || '')` guard, so an
undefined argument raises a TypeError. -/
def slugify (s : Option String) : Except String String :=
  match s with
  | none => .error "TypeError: Cannot read properties of undefined (reading 'toLowerCase')"
  | some str => .ok (slugCore str)

/-- `collectImageUrls` (part_000): returns [] unless `cover_image` is
truthy; gallery `resource_url`s are added without a truthiness check
(an undefined url, outside the claims' scope, is modelled as ""). -/
def collectImageUrls (basic : BasicInfo) : List String :=
  match truthyS basic.cover_image with
  | none => []
  | some cover =>
    let l1 := Sync.addUnique [] cover
    let l2 := match truthyS basic.thumb with
      | some u => Sync.addUnique l1 u
      | none => l1
    (basic.images.getD []).foldl (fun acc img =>
      Sync.addUnique acc (img.resource_url.getD "")) l2

/-- `findProductBySkuOrMetafield` (part_000): lists the first 50 products
(`GET /products.json?limit=50...`) and scans their variants for the SKU. -/
def findProductBySkuOrMetafield (sku : String) (st : Catalog) : Option Product :=
  (st.products.take 50).find? (fun p => p.variants.any (fun v => v.sku == sku))

/-- One iteration of the part_000 metafield upsert loop: the value is
written as-is — there is no trim and no blank-skip.  (A JS-undefined value,
outside the claims' scope, is modelled as "".) -/
def upsertStep (idx : List Metafield) (pid : Nat) (st : Catalog)
    (e : String × Option String) : Catalog :=
  let value := e.2.getD ""
  let parts := splitOnDot e.1
  let ns := parts.headD ""
  let key := (parts.drop 1).headD ""
  let ty := if key = "notes" then "multi_line_text_field" else "single_line_text_field"
  match lastMatch idx e.1 with
  | some m => putMetafieldValue m.id value st
  | none => postMetafield pid ns key ty value st

def upsertLoop (idx : List Metafield) (pid : Nat) (st : Catalog) :
    List (String × Option String) → Catalog
  | [] => st
  | e :: rest => upsertLoop idx pid (upsertStep idx pid st e) rest

/-- `upsertProductMetafields` (part_000). -/
def upsertProductMetafields (pid : Nat) (kv : List (String × Option String))
    (st : Catalog) : Catalog :=
  upsertLoop (mfsOf st pid) pid st kv

/-- The metafield key/value map built by part_000's ensure (same fields
and values as sync.js, with `basic` known present). -/
def kvMap (item : Item) : List (String × Option String) :=
  Sync.kvMap item

/-- The create payload of part_000 (inventory tracked by Shopify). -/
def createPayloadOf (cfg : Config) (item : Item) (basic : BasicInfo) : ProductPayload :=
  { title := buildTitle basic.artists basic.title,
    body_html := Sync.bodyHtmlOf (some basic),
    handle := slugCore (jsStr (buildTitle basic.artists basic.title) ++ "-"
        ++ jsStr (Sync.instanceIdOf item)),
    status := cfg.defaultStatus,
    tags := Sync.tagsStringOf item,
    vendor := jsOrS ((basic.labels.bind (fun ls => ls.head?)).bind LabelInfo.name)
        "Unknown Label",
    product_type := "Vinyl",
    variants := [{ sku := Sync.skuOf item, price := "0.00",
                   barcode := truthyS basic.barcode }],
    images := (collectImageUrls basic).take 8 }

/-- `setInventory` (part_000) posts an inventory level; inventory state is
outside the catalog model, so the call leaves the catalog unchanged. -/
def setInventory (st : Catalog) : Catalog := st

/-- `ensureProductFromDiscogsItem` (part_000): `basic` is dereferenced
without optional chaining (TypeError on a missing block), the SKU lookup
only sees the first 50 listed products, and a create failure propagates
with no retry. -/
def ensureProductFromDiscogsItem (cfg : Config) (item : Item) (st : Catalog) :
    Except String (Product × Catalog) :=
  match item.basic_information with
  | none => .error "TypeError: Cannot read properties of undefined"
  | some basic =>
    let sku := Sync.skuOf item
    let tags := Sync.tagsStringOf item
    match findProductBySkuOrMetafield sku st with
    | none =>
      match createProduct (createPayloadOf cfg item basic) st with
      | .error e => .error e
      | .ok (p, st1) =>
        let st2 := setInventory st1
        let st3 := upsertProductMetafields p.id (kvMap item) st2
        let st4 := if (truthyS cfg.collectionHandle).isSome then
            addToCollectionByHandle cfg.collectionHandle p.id st3
          else st3
        .ok (p, st4)
    | some existing =>
      let st1 := updateProductTags existing.id tags st
      let st2 := upsertProductMetafields existing.id (kvMap item) st1
      let st3 := if (truthyS cfg.collectionHandle).isSome then
          addToCollectionByHandle cfg.collectionHandle existing.id st2
        else st2
      .ok (existing, st3)

/-- The per-page item loop of part_000's `syncFolder`: each item is
reconciled inside a try/catch whose catch body is only
`console.error('Failed item', item?.instance_id, e.message)` — part_000
declares no `failCount`, no `failures` list, and no other variable written
by the catch, so the only program state carried across items is the
catalog itself and the caught error is discarded. -/
def processItems (cfg : Config) : List Item → Catalog → Catalog
  | [], st => st
  | item :: rest, st =>
    match ensureProductFromDiscogsItem cfg item st with
    | .ok (_, st') => processItems cfg rest st'
    | .error _ => processItems cfg rest st

end SyncV0

/-! ## Concrete fixtures used by witnesses and counterexamples. -/

/-- The worked example of the spec:
`{instance_id: 42, basic_information: {title: "Blue", artists: [{name:"Joni Mitchell"}], year: 1971}, media_condition: "Near Mint (NM)"}`. -/
def item42 : Item :=
  { instance_id := some 42,
    basic_information := some
      { id := none, master_id := none, title := some "Blue",
        artists := some [{ name := "Joni Mitchell" }], year := some 1971,
        labels := none, catno := none, barcode := none, formats := none,
        cover_image := none, thumb := none, images := none },
    media_condition := some "Near Mint (NM)",
    sleeve_condition := none,
    notes := none }

/-- A workflow configuration (sync.js defaults). -/
def cfgW : Config :=
  { defaultStatus := "draft", collectionHandle := none }

/-- An item with no `basic_information` block: part_000's ensure raises a
TypeError on it in every catalog state. -/
def itemNoBasic : Item :=
  { instance_id := some 7, basic_information := none,
    media_condition := none, sleeve_condition := none, notes := none }

/-- No two adjacent hyphens (the shape guaranteed after `collapse`). -/
def noAdjHyphen : List Char → Bool
  | a :: b :: rest => !(a == '-' && b == '-') && noAdjHyphen (b :: rest)
  | _ => true

/-- All fields of a product except `tags` and `metafields` agree (the
frame left untouched by the update path). -/
def coreEq (q q' : Product) : Prop :=
  q.id = q'.id ∧ q.title = q'.title ∧ q.body_html = q'.body_html ∧
    q.handle = q'.handle ∧ q.status = q'.status ∧ q.vendor = q'.vendor ∧
    q.product_type = q'.product_type ∧ q.variants = q'.variants ∧ q.images = q'.images

/-- Metafield ids of a list are distinct and below the server's allocation
counter. -/
def mfIdsOk (l : List Metafield) (bound : Nat) : Prop :=
  (l.map Metafield.id).Nodup ∧ ∀ m ∈ l, m.id < bound

/-- Catalog well-formedness: every product's metafield ids are distinct
and below the allocation counter.  This holds of every catalog the server
can actually be in (ids are allocated fresh) and is preserved by all the
modelled operations. -/
def CatalogMfWF (st : Catalog) : Prop :=
  ∀ q ∈ st.products, mfIdsOk q.metafields st.nextMetafieldId

/-! Further fixtures. -/

/-- A generic catalog product used to build test states. -/
def mkProductW (i : Nat) (h sku : String) : Product :=
  { id := i, title := some ("P" ++ toString i), body_html := "", handle := h,
    status := "active", tags := "", vendor := "V", product_type := "Vinyl",
    variants := [{ sku := sku, price := "0.00", barcode := none }],
    images := [], metafields := [] }

/-- A store where `item42`'s computed handle is taken but the disambiguated
retry handle is free. -/
def stHandle1 : Catalog :=
  { products := [mkProductW 1 "joni-mitchell-blue-42" "X-1"],
    customCollections := [], collects := [], nextProductId := 2, nextMetafieldId := 1 }

/-- A store where both `item42`'s computed handle and the disambiguated
retry handle are taken. -/
def stHandle2 : Catalog :=
  { products := [mkProductW 1 "joni-mitchell-blue-42" "X-1",
                 mkProductW 2 "joni-mitchell-blue-42-dcg-42" "X-2"],
    customCollections := [], collects := [], nextProductId := 3, nextMetafieldId := 1 }

/-- A store whose product 1 already has a `discogs.notes` metafield. -/
def stMeta : Catalog :=
  { products := [{ mkProductW 1 "p-1" "X-1" with
      metafields := [{ id := 1, ns := "discogs", key := "notes",
                       type := "multi_line_text_field", value := "old" }] }],
    customCollections := [], collects := [], nextProductId := 2, nextMetafieldId := 2 }

/-- A store whose product 1 has no metafields. -/
def stMeta0 : Catalog :=
  { products := [mkProductW 1 "p-1" "X-1"],
    customCollections := [], collects := [], nextProductId := 2, nextMetafieldId := 1 }

/-- Fifty filler products that occupy the first page of the part_000
product listing. -/
def fillers : List Product :=
  (List.range 50).map (fun i => mkProductW (i + 1) ("f-" ++ toString (i + 1))
    ("F-" ++ toString (i + 1)))

/-- part_000 scenario: the product carrying SKU `DCG-42` is the 51st
product, beyond the 50 the lookup inspects, and holds `item42`'s handle. -/
def stC9taken : Catalog :=
  { products := fillers ++ [mkProductW 51 "joni-mitchell-blue-42" "DCG-42"],
    customCollections := [], collects := [], nextProductId := 52, nextMetafieldId := 1 }

/-- Same, but the hidden product holds a different handle (as after a
title change or a disambiguated create), so the create can succeed. -/
def stC9free : Catalog :=
  { products := fillers ++ [mkProductW 51 "blue-42-dcg-42" "DCG-42"],
    customCollections := [], collects := [], nextProductId := 52, nextMetafieldId := 1 }

/-- Fallback values for extracting the components of a successful run. -/
def dummyProduct : Product :=
  { id := 0, title := none, body_html := "", handle := "", status := "", tags := "",
    vendor := "", product_type := "", variants := [], images := [], metafields := [] }

/-- The first reconcile of `item42` against an empty store. -/
def run42 : Except String (Product × Catalog) :=
  Sync.ensureProductFromDiscogsItem cfgW item42 emptyCatalog

def p42 : Product :=
  match run42 with
  | .ok (p, _) => p
  | .error _ => dummyProduct

def st42 : Catalog :=
  match run42 with
  | .ok (_, s) => s
  | .error _ => emptyCatalog

/-- A single-page Discogs folder response (no pagination block). -/
def fetchNoPagination : Nat → Sync.DiscogsResponse :=
  fun _ => { releases := [item42], pagination := none }

/-- A three-page Discogs folder whose responses report a fixed total. -/
def fetchThreePages : Nat → Sync.DiscogsResponse :=
  fun _ => { releases := [], pagination := some { pages := 3 } }

/-! ## Theorems.

First, properties of the slug pipeline. -/

theorem mem_hyphenate {c : Char} {l : List Char} (h : c ∈ hyphenate l) :
    isSlugOut c = true := by
  simp only [hyphenate, List.mem_map] at h
  obtain ⟨x, -, rfl⟩ := h
  by_cases hx : isSlugChar x = true
  · simp [hx, isSlugOut]
  · simp [hx, isSlugOut]

theorem mem_collapse : ∀ {l : List Char} {c : Char}, c ∈ collapse l → c ∈ l := by
  intro l
  induction l with
  | nil => intro c hc; simp [collapse] at hc
  | cons a t ih =>
    intro c hc
    cases h : collapse t with
    | nil =>
      have hcol : collapse (a :: t) = [a] := by rw [collapse, h]
      rw [hcol] at hc
      simp only [List.mem_singleton] at hc
      exact List.mem_cons.mpr (Or.inl hc)
    | cons b r =>
      have hcol : collapse (a :: t) = if a = '-' ∧ b = '-' then b :: r else a :: b :: r := by
        rw [collapse, h]
      rw [hcol] at hc
      by_cases hab : a = '-' ∧ b = '-'
      · rw [if_pos hab] at hc
        exact List.mem_cons_of_mem _ (ih (h ▸ hc))
      · rw [if_neg hab] at hc
        rcases List.mem_cons.mp hc with rfl | hc'
        · exact List.mem_cons_self _ _
        · exact List.mem_cons_of_mem _ (ih (h ▸ hc'))

theorem collapse_noAdj : ∀ l : List Char, noAdjHyphen (collapse l) = true := by
  intro l
  induction l with
  | nil => rfl
  | cons a t ih =>
    cases h : collapse t with
    | nil =>
      have hcol : collapse (a :: t) = [a] := by rw [collapse, h]
      rw [hcol]; rfl
    | cons b r =>
      have hcol : collapse (a :: t) = if a = '-' ∧ b = '-' then b :: r else a :: b :: r := by
        rw [collapse, h]
      rw [hcol]
      rw [h] at ih
      by_cases hab : a = '-' ∧ b = '-'
      · rw [if_pos hab]; exact ih
      · rw [if_neg hab]
        have hb : (a == '-' && b == '-') = false := by
          rcases Decidable.not_and_iff_or_not.mp hab with ha | hbne
          · simp [beq_eq_false_iff_ne.mpr ha]
          · simp [beq_eq_false_iff_ne.mpr hbne]
        simp [noAdjHyphen, hb, ih]

theorem noAdj_tail {a : Char} {t : List Char} (h : noAdjHyphen (a :: t) = true) :
    noAdjHyphen t = true := by
  cases t with
  | nil => rfl
  | cons b r =>
    simp only [noAdjHyphen, Bool.and_eq_true] at h
    exact h.2

theorem mem_dropLeading {c : Char} {l : List Char} (h : c ∈ dropLeadingHyphen l) :
    c ∈ l := by
  cases l with
  | nil => simp [dropLeadingHyphen] at h
  | cons a t =>
    by_cases ha : a = '-'
    · rw [dropLeadingHyphen, if_pos ha] at h
      exact List.mem_cons_of_mem _ h
    · rwa [dropLeadingHyphen, if_neg ha] at h

theorem noAdj_dropLeading {l : List Char} (h : noAdjHyphen l = true) :
    noAdjHyphen (dropLeadingHyphen l) = true := by
  cases l with
  | nil => rfl
  | cons a t =>
    by_cases ha : a = '-'
    · rw [dropLeadingHyphen, if_pos ha]; exact noAdj_tail h
    · rwa [dropLeadingHyphen, if_neg ha]

theorem head_dropLeading {l : List Char} (h : noAdjHyphen l = true) :
    (dropLeadingHyphen l).head? ≠ some '-' := by
  cases l with
  | nil => simp [dropLeadingHyphen]
  | cons a t =>
    by_cases ha : a = '-'
    · rw [dropLeadingHyphen, if_pos ha]
      cases t with
      | nil => simp
      | cons b r =>
        subst ha
        simp only [noAdjHyphen, Bool.and_eq_true, Bool.not_eq_true',
          Bool.and_eq_false_iff] at h
        intro hb
        simp only [List.head?_cons, Option.some.injEq] at hb
        rcases h.1 with h1 | h1 <;> simp [hb] at h1
    · rw [dropLeadingHyphen, if_neg ha]
      simpa using ha

theorem head_dropLast {l : List Char} {c : Char} (h : l.dropLast.head? = some c) :
    l.head? = some c := by
  cases l with
  | nil => simp [List.dropLast] at h
  | cons a t =>
    cases t with
    | nil => simp [List.dropLast] at h
    | cons b r =>
      simpa [List.dropLast] using h

theorem head_dropTrailing {l : List Char} (h : l.head? ≠ some '-') :
    (dropTrailingHyphen l).head? ≠ some '-' := by
  by_cases hl : l.getLast? = some '-'
  · rw [dropTrailingHyphen, if_pos hl]
    intro hc
    exact h (head_dropLast hc)
  · rwa [dropTrailingHyphen, if_neg hl]

theorem mem_dropTrailing {c : Char} {l : List Char} (h : c ∈ dropTrailingHyphen l) :
    c ∈ l := by
  by_cases hl : l.getLast? = some '-'
  · rw [dropTrailingHyphen, if_pos hl] at h
    exact (List.dropLast_sublist l).mem h
  · rwa [dropTrailingHyphen, if_neg hl] at h

theorem noAdj_getLast_dropLast :
    ∀ {l : List Char}, noAdjHyphen l = true → l.getLast? = some '-' →
      l.dropLast.getLast? ≠ some '-' := by
  intro l
  induction l with
  | nil => intro h1 h2; simp at h2
  | cons a t ih =>
    intro hadj hlast
    cases t with
    | nil =>
      simp only [List.getLast?_singleton, Option.some.injEq] at hlast
      simp [List.dropLast]
    | cons b r =>
      rw [List.getLast?_cons_cons] at hlast
      have hadj' : noAdjHyphen (b :: r) = true := noAdj_tail hadj
      cases r with
      | nil =>
        simp only [List.getLast?_singleton, Option.some.injEq] at hlast
        subst hlast
        simp only [noAdjHyphen, Bool.and_eq_true, Bool.not_eq_true',
          Bool.and_eq_false_iff] at hadj
        rcases hadj.1 with h1 | h1
        · simp only [List.dropLast, List.getLast?_singleton]
          intro hc
          simp only [Option.some.injEq] at hc
          simp [hc] at h1
        · simp at h1
      | cons d q =>
        have : (a :: b :: d :: q).dropLast = a :: (b :: d :: q).dropLast := rfl
        rw [this]
        have hrec := ih hadj' hlast
        cases hdl : (b :: d :: q).dropLast with
        | nil => simp [List.dropLast] at hdl
        | cons x xs =>
          rw [hdl] at hrec
          rw [List.getLast?_cons_cons]
          exact hrec

theorem getLast_dropTrailing {l : List Char} (h : noAdjHyphen l = true) :
    (dropTrailingHyphen l).getLast? ≠ some '-' := by
  by_cases hl : l.getLast? = some '-'
  · rw [dropTrailingHyphen, if_pos hl]
    exact noAdj_getLast_dropLast h hl
  · rwa [dropTrailingHyphen, if_neg hl]

/-- The composite property of the slug pipeline on an arbitrary string. -/
theorem slugCore_ok (s : String) : slugOutOk (slugCore s) = true := by
  have hlist : (slugCore s).toList
      = stripEnds (collapse (hyphenate (sToLower s).toList)) := rfl
  have hadj : noAdjHyphen (collapse (hyphenate (sToLower s).toList)) = true :=
    collapse_noAdj _
  have hadj' :
      noAdjHyphen (dropLeadingHyphen (collapse (hyphenate (sToLower s).toList))) = true :=
    noAdj_dropLeading hadj
  have hmem : ∀ c ∈ (slugCore s).toList, isSlugOut c = true := by
    intro c hc
    rw [hlist] at hc
    exact mem_hyphenate (mem_collapse (mem_dropLeading (mem_dropTrailing hc)))
  have hhead : (slugCore s).toList.head? ≠ some '-' := by
    rw [hlist]
    exact head_dropTrailing (head_dropLeading hadj)
  have hlast : (slugCore s).toList.getLast? ≠ some '-' := by
    rw [hlist]
    exact getLast_dropTrailing hadj'
  simp only [slugOutOk, Bool.and_eq_true, List.all_eq_true, Bool.not_eq_true',
    beq_eq_false_iff_ne]
  exact ⟨⟨hmem, hhead⟩, hlast⟩

/-- C5 counterexample: the repository's part_000 revision of `slugify`
dereferences its argument without the `(s || '')` guard, so it throws a
TypeError on an undefined input — refuting totality of "slugify" over all
inputs for that revision. -/
theorem claim_C5_slugify_cex :
    SyncV0.slugify none =
      .error "TypeError: Cannot read properties of undefined (reading 'toLowerCase')" := rfl

/-- C5 (amended): the sync.js `slugify` is total — for every input,
including undefined and the empty string, it returns a string with no
leading hyphen, no trailing hyphen, and no character outside `[a-z0-9-]`;
the part_000 revision satisfies the same output property on every defined
string but throws on an undefined input. -/
theorem claim_C5_slugify_total_and_charset (s : Option String) (t : String) :
    slugOutOk (Sync.slugify s) = true
      ∧ SyncV0.slugify (some t) = .ok (slugCore t)
      ∧ slugOutOk (slugCore t) = true :=
  ⟨slugCore_ok _, rfl, slugCore_ok t⟩

/-- The modelled collision error does contain the fragment that the
client's catch branch matches on. -/
theorem hasSubstr_handleTakenError : hasSubstr handleTakenError handleTakenMarker = true := by
  decide

/-- C3: on the create path, a create failure whose message carries the
handle-collision fragment triggers exactly one retry with the slug
suffixed by `-` and the lowercase SKU, whose outcome (success or a second
collision) is returned as-is; any create failure without that fragment
propagates unchanged with no retry; in the catalog model a create fails
with the collision message exactly when the handle is taken, and the two
ensure-level corollaries follow. -/
theorem claim_C3_create_retry :
    (∀ (attempt : String → Except String (Product × Catalog)) (h s : String)
        (r : Product × Catalog), attempt h = .ok r →
        Sync.createWithHandleRetry attempt h s = .ok r)
  ∧ (∀ (attempt : String → Except String (Product × Catalog)) (h s e : String),
        attempt h = .error e → hasSubstr e handleTakenMarker = true →
        Sync.createWithHandleRetry attempt h s = attempt (h ++ "-" ++ sToLower s))
  ∧ (∀ (attempt : String → Except String (Product × Catalog)) (h s e : String),
        attempt h = .error e → hasSubstr e handleTakenMarker = false →
        Sync.createWithHandleRetry attempt h s = .error e)
  ∧ (∀ (pl : ProductPayload) (st : Catalog),
        (st.products.any (fun q => q.handle == pl.handle) = true →
          createProduct pl st = .error handleTakenError)
      ∧ (st.products.any (fun q => q.handle == pl.handle) = false →
          ∃ p st', createProduct pl st = .ok (p, st')))
  ∧ (∀ (cfg : Config) (item : Item) (st : Catalog),
      Sync.findProductBySkuOrMetafield (Sync.skuOf item) st = none →
      st.products.any (fun q => q.handle == Sync.handleOf item) = true →
      (st.products.any (fun q =>
          q.handle == Sync.handleOf item ++ "-" ++ sToLower (Sync.skuOf item)) = false →
        ∃ p st', Sync.ensureProductFromDiscogsItem cfg item st = .ok (p, st')
          ∧ p.handle = Sync.handleOf item ++ "-" ++ sToLower (Sync.skuOf item))
      ∧ (st.products.any (fun q =>
          q.handle == Sync.handleOf item ++ "-" ++ sToLower (Sync.skuOf item)) = true →
        Sync.ensureProductFromDiscogsItem cfg item st = .error handleTakenError)) := by
  refine ⟨?_, ?_, ?_, ?_, ?_⟩
  · intro attempt h s r ha
    simp [Sync.createWithHandleRetry, ha]
  · intro attempt h s e ha hm
    simp [Sync.createWithHandleRetry, ha, hm]
  · intro attempt h s e ha hm
    simp [Sync.createWithHandleRetry, ha, hm]
  · intro pl st
    constructor
    · intro hany
      simp [createProduct, hany]
    · intro hany
      exact ⟨createdProduct pl st, createdCatalog pl st, by simp [createProduct, hany]⟩
  · intro cfg item st hfind htaken
    constructor
    · intro hfree
      have heq : Sync.ensureProductFromDiscogsItem cfg item st =
          (.ok (createdProduct
              { Sync.createPayloadOf cfg item with
                handle := Sync.handleOf item ++ "-" ++ sToLower (Sync.skuOf item) } st,
            addToCollectionByHandle cfg.collectionHandle
              (createdProduct
                { Sync.createPayloadOf cfg item with
                  handle := Sync.handleOf item ++ "-" ++ sToLower (Sync.skuOf item) } st).id
              (Sync.upsertProductMetafields
                (createdProduct
                  { Sync.createPayloadOf cfg item with
                    handle := Sync.handleOf item ++ "-" ++ sToLower (Sync.skuOf item) } st).id
                (Sync.kvMap item)
                (createdCatalog
                  { Sync.createPayloadOf cfg item with
                    handle := Sync.handleOf item ++ "-" ++ sToLower (Sync.skuOf item) } st)))) := by
        rw [Sync.ensureProductFromDiscogsItem, hfind]
        simp [Sync.createWithHandleRetry, createProduct, htaken, hfree,
          hasSubstr_handleTakenError]
      exact ⟨_, _, heq, rfl⟩
    · intro htaken2
      rw [Sync.ensureProductFromDiscogsItem, hfind]
      simp [Sync.createWithHandleRetry, createProduct, htaken, htaken2,
        hasSubstr_handleTakenError]

/-- C3 witness: against `stHandle1` (original handle taken, retry handle
free) the reconcile of `item42` succeeds with the disambiguated slug
`joni-mitchell-blue-42-dcg-42`; against `stHandle2` (both taken) the
second collision propagates as an ordinary error. -/
theorem claim_C3_create_retry_witness :
    (∃ p st', Sync.ensureProductFromDiscogsItem cfgW item42 stHandle1 = .ok (p, st')
        ∧ p.handle = Sync.handleOf item42 ++ "-" ++ sToLower (Sync.skuOf item42))
      ∧ Sync.ensureProductFromDiscogsItem cfgW item42 stHandle2 = .error handleTakenError := by
  constructor
  · exact (claim_C3_create_retry.2.2.2.2 cfgW item42 stHandle1 (by decide)
      (by decide)).1 (by decide)
  · exact (claim_C3_create_retry.2.2.2.2 cfgW item42 stHandle2 (by decide)
      (by decide)).2 (by decide)

/-! ### Frame lemmas about the catalog operations. -/

theorem coreEq_refl (q : Product) : coreEq q q :=
  ⟨rfl, rfl, rfl, rfl, rfl, rfl, rfl, rfl, rfl⟩

theorem coreEq_trans {a b c : Product} (h1 : coreEq a b) (h2 : coreEq b c) : coreEq a c := by
  obtain ⟨e1, e2, e3, e4, e5, e6, e7, e8, e9⟩ := h1
  obtain ⟨f1, f2, f3, f4, f5, f6, f7, f8, f9⟩ := h2
  exact ⟨e1.trans f1, e2.trans f2, e3.trans f3, e4.trans f4, e5.trans f5,
    e6.trans f6, e7.trans f7, e8.trans f8, e9.trans f9⟩

theorem addToCollection_products (h : Option String) (pid : Nat) (st : Catalog) :
    (addToCollectionByHandle h pid st).products = st.products := by
  unfold addToCollectionByHandle
  split
  · rfl
  · split
    · rfl
    · rfl

theorem addToCollection_nextMetafieldId (h : Option String) (pid : Nat) (st : Catalog) :
    (addToCollectionByHandle h pid st).nextMetafieldId = st.nextMetafieldId := by
  unfold addToCollectionByHandle
  split
  · rfl
  · split
    · rfl
    · rfl

/-- The blank-skip equation of the sync.js upsert step. -/
theorem upsertStep_blank (idx : List Metafield) (pid : Nat) (st : Catalog)
    (e : String × Option String) (hb : sTrim (e.2.getD "") = "") :
    Sync.upsertStep idx pid st e = st := by
  simp [Sync.upsertStep, hb]

/-- The overwrite equation of the sync.js upsert step. -/
theorem upsertStep_put (idx : List Metafield) (pid : Nat) (st : Catalog)
    (e : String × Option String) (m : Metafield)
    (hb : sTrim (e.2.getD "") ≠ "") (hm : lastMatch idx e.1 = some m) :
    Sync.upsertStep idx pid st e = putMetafieldValue m.id (sTrim (e.2.getD "")) st := by
  simp only [Sync.upsertStep]
  rw [if_neg hb, hm]

/-- The create equation of the sync.js upsert step. -/
theorem upsertStep_post (idx : List Metafield) (pid : Nat) (st : Catalog)
    (e : String × Option String)
    (hb : sTrim (e.2.getD "") ≠ "") (hm : lastMatch idx e.1 = none) :
    Sync.upsertStep idx pid st e =
      postMetafield pid ((splitOnDot e.1).headD "") (((splitOnDot e.1).drop 1).headD "")
        (if ((splitOnDot e.1).drop 1).headD "" = "notes" then "multi_line_text_field"
          else "single_line_text_field")
        (sTrim (e.2.getD "")) st := by
  simp only [Sync.upsertStep]
  rw [if_neg hb, hm]

/-- One step of the sync.js metafield loop rewrites products pointwise and
never touches the non-metafield fields. -/
theorem upsertStep_pointwise (idx : List Metafield) (pid : Nat) (st : Catalog)
    (e : String × Option String) :
    ∃ f : Product → Product, (Sync.upsertStep idx pid st e).products = st.products.map f
      ∧ ∀ q, coreEq q (f q) ∧ (f q).tags = q.tags ∧ (f q).variants = q.variants
          ∧ (f q).id = q.id := by
  by_cases hb : sTrim (e.2.getD "") = ""
  · refine ⟨id, ?_, ?_⟩
    · rw [upsertStep_blank idx pid st e hb, List.map_id]
    · intro q; exact ⟨coreEq_refl q, rfl, rfl, rfl⟩
  · cases hm : lastMatch idx e.1 with
    | some m =>
      refine ⟨fun q => { q with metafields := q.metafields.map (fun mf =>
          if mf.id == m.id then { mf with value := sTrim (e.2.getD "") } else mf) }, ?_, ?_⟩
      · rw [upsertStep_put idx pid st e m hb hm]
        rfl
      · intro q
        exact ⟨⟨rfl, rfl, rfl, rfl, rfl, rfl, rfl, rfl, rfl⟩, rfl, rfl, rfl⟩
    | none =>
      refine ⟨fun q => if q.id == pid then
          { q with metafields := q.metafields ++
              [{ id := st.nextMetafieldId,
                 ns := (splitOnDot e.1).headD "",
                 key := ((splitOnDot e.1).drop 1).headD "",
                 type := if ((splitOnDot e.1).drop 1).headD "" = "notes" then
                     "multi_line_text_field" else "single_line_text_field",
                 value := sTrim (e.2.getD "") }] }
        else q, ?_, ?_⟩
      · rw [upsertStep_post idx pid st e hb hm]
        rfl
      · intro q
        by_cases hq : (q.id == pid) = true
        · dsimp only
          rw [if_pos hq]
          exact ⟨⟨rfl, rfl, rfl, rfl, rfl, rfl, rfl, rfl, rfl⟩, rfl, rfl, rfl⟩
        · dsimp only
          rw [if_neg hq]
          exact ⟨coreEq_refl q, rfl, rfl, rfl⟩

/-- The whole sync.js metafield loop rewrites products pointwise and never
touches the non-metafield fields. -/
theorem upsertLoop_pointwise (idx : List Metafield) (pid : Nat) :
    ∀ (kv : List (String × Option String)) (st : Catalog),
    ∃ f : Product → Product, (Sync.upsertLoop idx pid st kv).products = st.products.map f
      ∧ ∀ q, coreEq q (f q) ∧ (f q).tags = q.tags ∧ (f q).variants = q.variants
          ∧ (f q).id = q.id := by
  intro kv
  induction kv with
  | nil =>
    intro st
    refine ⟨id, ?_, ?_⟩
    · simp [Sync.upsertLoop]
    · intro q; exact ⟨coreEq_refl q, rfl, rfl, rfl⟩
  | cons e rest ih =>
    intro st
    obtain ⟨f1, hf1, hp1⟩ := upsertStep_pointwise idx pid st e
    obtain ⟨f2, hf2, hp2⟩ := ih (Sync.upsertStep idx pid st e)
    refine ⟨f2 ∘ f1, ?_, ?_⟩
    · rw [Sync.upsertLoop, hf2, hf1, List.map_map]
    · intro q
      obtain ⟨c1, t1, v1, i1⟩ := hp1 q
      obtain ⟨c2, t2, v2, i2⟩ := hp2 (f1 q)
      exact ⟨coreEq_trans c1 c2, t2.trans t1, v2.trans v1, i2.trans i1⟩

theorem upsertLoop_products_length (idx : List Metafield) (pid : Nat)
    (kv : List (String × Option String)) (st : Catalog) :
    (Sync.upsertLoop idx pid st kv).products.length = st.products.length := by
  obtain ⟨f, hf, -⟩ := upsertLoop_pointwise idx pid kv st
  rw [hf, List.length_map]

/-- C7: for the spec's worked example item (instance 42, "Blue" by Joni
Mitchell, 1971, media grade "Near Mint (NM)") not yet in the catalog,
reconcile computes SKU `DCG-42` and title `Joni Mitchell – Blue`, the tag
set contains `grade:NearMint(NM)`, and the product is created with the
configured default status. -/
theorem claim_C7_example_item42 (cfg : Config) :
    Sync.skuOf item42 = "DCG-42"
  ∧ Sync.titleOf item42 = some "Joni Mitchell – Blue"
  ∧ "grade:NearMint(NM)" ∈ Sync.tagListOf item42
  ∧ ∃ p st', Sync.ensureProductFromDiscogsItem cfg item42 emptyCatalog = .ok (p, st')
      ∧ p.status = cfg.defaultStatus
      ∧ p.title = some "Joni Mitchell – Blue"
      ∧ p.variants.map Variant.sku = ["DCG-42"]
      ∧ st'.products.length = 1 := by
  refine ⟨by decide, by decide, by decide, ?_⟩
  refine ⟨_, _, rfl, rfl, rfl, rfl, ?_⟩
  rw [addToCollection_products]
  rw [show Sync.upsertProductMetafields = fun pid kv st => Sync.upsertLoop (mfsOf st pid) pid st kv from rfl]
  rw [upsertLoop_products_length]
  rfl

/-! ### Metafield-level lemmas. -/

theorem find?_map_pres {α : Type} (f : α → α) (p : α → Bool)
    (hp : ∀ a, p (f a) = p a) (l : List α) :
    (l.map f).find? p = (l.find? p).map f := by
  rw [List.find?_map]
  have hfp : (p ∘ f) = p := funext hp
  rw [hfp]

theorem filter_map_pres {α : Type} (f : α → α) (p : α → Bool)
    (hp : ∀ a, p (f a) = p a) (l : List α) :
    (l.map f).filter p = (l.filter p).map f := by
  rw [List.filter_map]
  have hfp : (p ∘ f) = p := funext hp
  rw [hfp]

/-- `mfsOf` through the option API. -/
theorem mfsOf_eq (st : Catalog) (pid : Nat) :
    mfsOf st pid = ((st.products.find? (fun q => q.id == pid)).map Product.metafields).getD [] := by
  unfold mfsOf
  cases st.products.find? (fun q => q.id == pid) with
  | none => rfl
  | some q => rfl

/-- `PUT /metafields/{mid}` as seen through `GET /products/{pid}/metafields`:
it only rewrites values. -/
theorem mfsOf_put (mid : Nat) (v : String) (st : Catalog) (pid : Nat) :
    mfsOf (putMetafieldValue mid v st) pid
      = (mfsOf st pid).map (fun m => if m.id == mid then { m with value := v } else m) := by
  have hfind : (putMetafieldValue mid v st).products.find? (fun q => q.id == pid)
      = (st.products.find? (fun q => q.id == pid)).map
          (fun q => { q with metafields := q.metafields.map (fun m =>
              if m.id == mid then { m with value := v } else m) }) :=
    find?_map_pres
      (fun q => { q with metafields := q.metafields.map (fun m =>
          if m.id == mid then { m with value := v } else m) })
      (fun q => q.id == pid) (fun a => rfl) st.products
  rw [mfsOf_eq, mfsOf_eq, hfind]
  cases st.products.find? (fun q => q.id == pid) with
  | none => rfl
  | some q => rfl

/-- The predicate `q.id == pid` is invariant under the product rewrite of
`POST /products/{pid}/metafields`. -/
theorem postF_id_pres (pid : Nat) (mfnew : Metafield) (a : Product) :
    ((if a.id == pid then { a with metafields := a.metafields ++ [mfnew] } else a).id == pid)
      = (a.id == pid) := by
  by_cases h : (a.id == pid) = true
  · rw [if_pos h]
  · rw [if_neg h]

/-- `POST /products/{pid}/metafields` appends to the metafields the GET
endpoint serves for `pid` (when a product with that id exists). -/
theorem mfsOf_post (pid : Nat) (ns key ty v : String) (st : Catalog) (q : Product)
    (hf : st.products.find? (fun r => r.id == pid) = some q) :
    mfsOf (postMetafield pid ns key ty v st) pid
      = mfsOf st pid
        ++ [{ id := st.nextMetafieldId, ns := ns, key := key, type := ty, value := v }] := by
  have hfind : (postMetafield pid ns key ty v st).products.find? (fun r => r.id == pid)
      = (st.products.find? (fun r => r.id == pid)).map (fun r =>
          if r.id == pid then { r with metafields := r.metafields ++
            [{ id := st.nextMetafieldId, ns := ns, key := key, type := ty, value := v }] }
          else r) :=
    find?_map_pres
      (fun r => if r.id == pid then { r with metafields := r.metafields ++
          [{ id := st.nextMetafieldId, ns := ns, key := key, type := ty, value := v }] }
        else r)
      (fun r => r.id == pid) (fun a => postF_id_pres pid _ a) st.products
  have hq := List.find?_some hf
  rw [mfsOf_eq, mfsOf_eq, hfind, hf]
  show (if q.id == pid then { q with metafields := q.metafields ++
      [{ id := st.nextMetafieldId, ns := ns, key := key, type := ty, value := v }] }
    else q).metafields = q.metafields ++
      [{ id := st.nextMetafieldId, ns := ns, key := key, type := ty, value := v }]
  rw [if_pos hq]

/-- A PUT never changes the number of entries under any `namespace.key` on
any product. -/
theorem put_counts (mid : Nat) (v : String) (st : Catalog) (pid2 : Nat) (full2 : String) :
    (fullEntries (mfsOf (putMetafieldValue mid v st) pid2) full2).length
      = (fullEntries (mfsOf st pid2) full2).length := by
  rw [mfsOf_put]
  unfold fullEntries
  have hp : ∀ m : Metafield,
      (fullKeyOf (if m.id == mid then { m with value := v } else m) == full2)
        = (fullKeyOf m == full2) := by
    intro m
    by_cases h : (m.id == mid) = true
    · rw [if_pos h]; rfl
    · rw [if_neg h]
  rw [filter_map_pres _ _ hp, List.length_map]

/-- After a PUT targeting the last entry under `full`, the served value
under `full` is the written value. -/
theorem put_mfValue (st : Catalog) (pid : Nat) (full : String) (m : Metafield) (v : String)
    (hm : lastMatch (mfsOf st pid) full = some m) :
    mfValue (putMetafieldValue m.id v st) pid full = some v := by
  unfold mfValue lastMatch fullEntries
  rw [mfsOf_put]
  have hp : ∀ mf : Metafield,
      (fullKeyOf (if mf.id == m.id then { mf with value := v } else mf) == full)
        = (fullKeyOf mf == full) := by
    intro mf
    by_cases h : (mf.id == m.id) = true
    · rw [if_pos h]; rfl
    · rw [if_neg h]
  rw [filter_map_pres _ _ hp, List.getLast?_map]
  unfold lastMatch fullEntries at hm
  rw [hm]
  simp

/-- C2 counterexample: the part_000 revision of the metafield upsert has no
blank check — upserting an empty `discogs.notes` value issues the create
call and stores a metafield whose value is the empty string. -/
theorem claim_C2_metafield_upsert_cex :
    mfValue (SyncV0.upsertProductMetafields 1 [("discogs.notes", some "")] stMeta0)
      1 "discogs.notes" = some "" := by decide

/-- C2 (amended): the sync.js metafield upsert never writes a blank value —
a field whose trimmed value is empty leaves the store completely unchanged —
and a non-empty field whose `namespace.key` already exists is overwritten in
place: no id is allocated, no entry count changes anywhere, and the served
value becomes the trimmed new value.  (The part_000 revision predates the
blank check and writes values unconditionally.) -/
theorem claim_C2_metafield_upsert (pid : Nat) (full : String) (raw : Option String)
    (st : Catalog) :
    (sTrim (raw.getD "") = "" →
      Sync.upsertProductMetafields pid [(full, raw)] st = st)
  ∧ (sTrim (raw.getD "") ≠ "" →
      ∀ m, lastMatch (mfsOf st pid) full = some m →
        ((Sync.upsertProductMetafields pid [(full, raw)] st).nextMetafieldId
            = st.nextMetafieldId
        ∧ (∀ pid2 full2,
            (fullEntries (mfsOf (Sync.upsertProductMetafields pid [(full, raw)] st) pid2)
                full2).length
              = (fullEntries (mfsOf st pid2) full2).length)
        ∧ mfValue (Sync.upsertProductMetafields pid [(full, raw)] st) pid full
            = some (sTrim (raw.getD "")))) := by
  have hsingle : Sync.upsertProductMetafields pid [(full, raw)] st
      = Sync.upsertStep (mfsOf st pid) pid st (full, raw) := rfl
  constructor
  · intro hb
    rw [hsingle, upsertStep_blank _ _ _ _ hb]
  · intro hb m hm
    rw [hsingle, upsertStep_put _ _ _ _ m hb hm]
    exact ⟨rfl, fun pid2 full2 => put_counts m.id _ st pid2 full2,
      put_mfValue st pid full m _ hm⟩

/-- C2 witness: a blank `discogs.notes` leaves `stMeta` untouched; a
non-blank one overwrites the existing entry in place. -/
theorem claim_C2_metafield_upsert_witness :
    Sync.upsertProductMetafields 1 [("discogs.notes", some "  ")] stMeta = stMeta
  ∧ mfValue (Sync.upsertProductMetafields 1 [("discogs.notes", some "new")] stMeta)
      1 "discogs.notes" = some "new"
  ∧ (Sync.upsertProductMetafields 1 [("discogs.notes", some "new")] stMeta).nextMetafieldId
      = stMeta.nextMetafieldId := by
  have hm : lastMatch (mfsOf stMeta 1) "discogs.notes"
      = some { id := 1, ns := "discogs", key := "notes",
               type := "multi_line_text_field", value := "old" } := by decide
  refine ⟨(claim_C2_metafield_upsert 1 "discogs.notes" (some "  ") stMeta).1 (by decide),
    ((claim_C2_metafield_upsert 1 "discogs.notes" (some "new") stMeta).2 (by decide)
      _ hm).2.2, ?_⟩
  exact ((claim_C2_metafield_upsert 1 "discogs.notes" (some "new") stMeta).2 (by decide)
    _ hm).1

/-! ### Pagination-driver lemmas. -/

/-- The item loop never touches the page-request trace. -/
theorem processItems_requested (cfg : Config) :
    ∀ (l : List Item) (s : Sync.SyncState),
      (Sync.processItems cfg l s).requested = s.requested := by
  intro l
  induction l with
  | nil => intro s; rfl
  | cons x rest ih =>
    intro s
    rw [Sync.processItems]
    cases Sync.ensureProductFromDiscogsItem cfg x s.catalog with
    | ok r => rw [ih]
    | error e => rw [ih]

/-- Loop equation: a response without a pagination block ends the loop
after its items are processed. -/
theorem syncFolderLoop_none (cfg : Config) (fetch : Nat → Sync.DiscogsResponse)
    (f page : Nat) (s : Sync.SyncState) (hp : (fetch page).pagination = none) :
    Sync.syncFolderLoop cfg fetch (f + 1) page s
      = some (Sync.processItems cfg (fetch page).releases
          { s with requested := s.requested ++ [page] }) := by
  simp only [Sync.syncFolderLoop, hp]

/-- Loop equation: the loop stops when the reported page total is reached. -/
theorem syncFolderLoop_stop (cfg : Config) (fetch : Nat → Sync.DiscogsResponse)
    (f page : Nat) (s : Sync.SyncState) (pg : Sync.Pagination)
    (hp : (fetch page).pagination = some pg) (hstop : pg.pages ≤ page) :
    Sync.syncFolderLoop cfg fetch (f + 1) page s
      = some (Sync.processItems cfg (fetch page).releases
          { s with requested := s.requested ++ [page] }) := by
  simp only [Sync.syncFolderLoop, hp]
  rw [if_pos hstop]

/-- Loop equation: otherwise the loop advances to the next page. -/
theorem syncFolderLoop_cont (cfg : Config) (fetch : Nat → Sync.DiscogsResponse)
    (f page : Nat) (s : Sync.SyncState) (pg : Sync.Pagination)
    (hp : (fetch page).pagination = some pg) (hcont : ¬pg.pages ≤ page) :
    Sync.syncFolderLoop cfg fetch (f + 1) page s
      = Sync.syncFolderLoop cfg fetch f (page + 1)
          (Sync.processItems cfg (fetch page).releases
            { s with requested := s.requested ++ [page] }) := by
  simp only [Sync.syncFolderLoop, hp]
  rw [if_neg hcont]

/-- With a fixed reported total `N`, the loop from `page ≤ N` requests
exactly pages `page, page+1, …, N` in order. -/
theorem syncFolderLoop_pages (cfg : Config) (fetch : Nat → Sync.DiscogsResponse) (N : Nat)
    (hN : ∀ p, (fetch p).pagination = some { pages := N }) :
    ∀ (fuel page : Nat) (s : Sync.SyncState), page ≤ N → N - page < fuel →
      ∃ s', Sync.syncFolderLoop cfg fetch fuel page s = some s'
        ∧ s'.requested = s.requested ++ List.range' page (N - page + 1) := by
  intro fuel
  induction fuel with
  | zero => intro page s hpage hfuel; omega
  | succ f ih =>
    intro page s hpage hfuel
    by_cases hstop : N ≤ page
    · have hpn : page = N := Nat.le_antisymm hpage hstop
      rw [syncFolderLoop_stop cfg fetch f page s _ (hN page) hstop]
      refine ⟨_, rfl, ?_⟩
      rw [processItems_requested]
      subst hpn
      simp [List.range']
    · rw [syncFolderLoop_cont cfg fetch f page s _ (hN page) hstop]
      obtain ⟨s', hs', hreq⟩ := ih (page + 1) _ (by omega) (by omega)
      refine ⟨s', hs', ?_⟩
      rw [hreq, processItems_requested]
      have hn : N - page + 1 = (N - (page + 1) + 1) + 1 := by omega
      rw [hn, List.range'_succ]
      simp [List.range'_succ]

/-- Page progression does not depend on the catalog or the failure
accumulator: an item failure can never change which pages are fetched. -/
theorem syncFolderLoop_requested_indep (cfg : Config)
    (fetch : Nat → Sync.DiscogsResponse) :
    ∀ (fuel page : Nat) (s t : Sync.SyncState), s.requested = t.requested →
      (Sync.syncFolderLoop cfg fetch fuel page s).map Sync.SyncState.requested
        = (Sync.syncFolderLoop cfg fetch fuel page t).map Sync.SyncState.requested := by
  intro fuel
  induction fuel with
  | zero => intro page s t h; rfl
  | succ f ih =>
    intro page s t h
    cases hp : (fetch page).pagination with
    | none =>
      rw [syncFolderLoop_none cfg fetch f page s hp,
        syncFolderLoop_none cfg fetch f page t hp]
      simp only [Option.map_some']
      rw [processItems_requested, processItems_requested, h]
    | some pg =>
      by_cases hstop : pg.pages ≤ page
      · rw [syncFolderLoop_stop cfg fetch f page s pg hp hstop,
          syncFolderLoop_stop cfg fetch f page t pg hp hstop]
        simp only [Option.map_some']
        rw [processItems_requested, processItems_requested, h]
      · rw [syncFolderLoop_cont cfg fetch f page s pg hp hstop,
          syncFolderLoop_cont cfg fetch f page t pg hp hstop]
        apply ih
        rw [processItems_requested, processItems_requested, h]

/-- C10: a source response with no pagination block (a falsy `pagination`)
is treated as a single-page folder — the items of that one response are
processed, no further page is requested, and no error is raised. -/
theorem claim_C10_missing_pagination (cfg : Config)
    (fetch : Nat → Sync.DiscogsResponse) (st : Catalog) (fuel : Nat)
    (hp : (fetch 1).pagination = none) (hf : 1 ≤ fuel) :
    ∃ s', Sync.syncFolder cfg fetch fuel (Sync.initState st) = some s'
      ∧ s' = Sync.processItems cfg (fetch 1).releases
          { catalog := st, failCount := 0, failures := [], requested := [1] }
      ∧ s'.requested = [1] := by
  cases fuel with
  | zero => omega
  | succ f =>
    rw [show Sync.syncFolder cfg fetch (f + 1) (Sync.initState st)
        = Sync.syncFolderLoop cfg fetch (f + 1) 1 (Sync.initState st) from rfl]
    rw [syncFolderLoop_none cfg fetch f 1 (Sync.initState st) hp]
    refine ⟨_, rfl, ?_, ?_⟩
    · rfl
    · rw [processItems_requested]
      simp [Sync.initState]

/-- C6: for a folder whose responses all report a fixed page total `N ≥ 1`,
the driver requests exactly pages `1, …, N`, once each, in order — stopping
exactly at the reported total. -/
theorem claim_C6_pagination_exact (cfg : Config)
    (fetch : Nat → Sync.DiscogsResponse) (N fuel : Nat) (st : Catalog)
    (hN : ∀ p, (fetch p).pagination = some { pages := N })
    (h1 : 1 ≤ N) (hfuel : N ≤ fuel) :
    ∃ s', Sync.syncFolder cfg fetch fuel (Sync.initState st) = some s'
      ∧ s'.requested = List.range' 1 N := by
  obtain ⟨s', hs', hreq⟩ :=
    syncFolderLoop_pages cfg fetch N hN fuel 1 (Sync.initState st) h1 (by omega)
  refine ⟨s', hs', ?_⟩
  rw [hreq]
  have hn : N - 1 + 1 = N := by omega
  rw [hn]
  rfl

/-- C6 witness: a three-page folder is fetched as pages `[1, 2, 3]`. -/
theorem claim_C6_pagination_exact_witness :
    ∃ s', Sync.syncFolder cfgW fetchThreePages 3 (Sync.initState emptyCatalog) = some s'
      ∧ s'.requested = List.range' 1 3 :=
  claim_C6_pagination_exact cfgW fetchThreePages 3 3 emptyCatalog (fun p => rfl)
    (by decide) (by decide)

/-- C10 witness: a single response without pagination processes its one
item and stops after page 1. -/
theorem claim_C10_missing_pagination_witness :
    ∃ s', Sync.syncFolder cfgW fetchNoPagination 1 (Sync.initState emptyCatalog) = some s'
      ∧ s' = Sync.processItems cfgW (fetchNoPagination 1).releases
          { catalog := emptyCatalog, failCount := 0, failures := [], requested := [1] }
      ∧ s'.requested = [1] :=
  claim_C10_missing_pagination cfgW fetchNoPagination emptyCatalog 1 rfl (by decide)

/-- C4 counterexample (part_000, `src/unnamed/part_000` 205-212): the
original claim says a per-item error is recorded in the failure
accumulator as the pair (instance id, error message), but part_000's
catch body is only a console log — no accumulator exists.  Two items that
fail in the same state `stC9taken` with different instance ids (7 vs 42)
and different error messages (a TypeError vs the handle-taken 422) leave
the run state literally unchanged and therefore identical: no pair
(instance id, message) is recorded anywhere in program state. -/
theorem claim_C4_per_item_failure_cex :
    SyncV0.ensureProductFromDiscogsItem cfgW itemNoBasic stC9taken
        = .error "TypeError: Cannot read properties of undefined"
  ∧ SyncV0.ensureProductFromDiscogsItem cfgW item42 stC9taken = .error handleTakenError
  ∧ itemNoBasic.instance_id = some 7 ∧ item42.instance_id = some 42
  ∧ SyncV0.processItems cfgW [itemNoBasic] stC9taken = stC9taken
  ∧ SyncV0.processItems cfgW [item42] stC9taken = stC9taken := by
  have h1 : SyncV0.ensureProductFromDiscogsItem cfgW itemNoBasic stC9taken
      = .error "TypeError: Cannot read properties of undefined" := rfl
  have h2 : SyncV0.ensureProductFromDiscogsItem cfgW item42 stC9taken
      = .error handleTakenError := rfl
  refine ⟨h1, h2, rfl, rfl, ?_, ?_⟩
  · rw [SyncV0.processItems, h1]; rfl
  · rw [SyncV0.processItems, h2]; rfl

/-- C4 (amended): an error raised while reconciling one item is caught at
the driver boundary in both revisions and the run goes on — in sync.js it
is recorded in the failure accumulator as the pair
(instance id, error message) and the rest of the page is processed from
that state, while in part_000 the catch only logs to the console, so the
rest of the page is processed from the unchanged catalog and no failure
record is kept in program state; in sync.js the pages fetched never depend
on the catalog or the accumulator — so a per-item failure cannot abort the
page loop or the folder loop. -/
theorem claim_C4_per_item_failure (cfg : Config) (x : Item) (rest : List Item)
    (s : Sync.SyncState) (e : String)
    (he : Sync.ensureProductFromDiscogsItem cfg x s.catalog = .error e)
    (x' : Item) (rest' : List Item) (st' : Catalog) (e' : String)
    (he' : SyncV0.ensureProductFromDiscogsItem cfg x' st' = .error e') :
    Sync.processItems cfg (x :: rest) s
      = Sync.processItems cfg rest
          { s with failCount := s.failCount + 1,
                   failures := s.failures ++ [(x.instance_id, e)] }
  ∧ (∀ (fetch : Nat → Sync.DiscogsResponse) (fuel page : Nat) (t : Sync.SyncState),
      s.requested = t.requested →
      (Sync.syncFolderLoop cfg fetch fuel page s).map Sync.SyncState.requested
        = (Sync.syncFolderLoop cfg fetch fuel page t).map Sync.SyncState.requested)
  ∧ SyncV0.processItems cfg (x' :: rest') st' = SyncV0.processItems cfg rest' st' := by
  refine ⟨?_, ?_, ?_⟩
  · rw [Sync.processItems, he]
  · intro fetch fuel page t h
    exact syncFolderLoop_requested_indep cfg fetch fuel page s t h
  · rw [SyncV0.processItems, he']

/-- C4 witness: reconciling `item42` against `stHandle2` throws (double
handle collision); the sync.js driver records `(42, message)` and goes on.
Reconciling `itemNoBasic` under part_000 throws a TypeError; the part_000
driver goes on from the same catalog. -/
theorem claim_C4_per_item_failure_witness :
    Sync.processItems cfgW [item42] (Sync.initState stHandle2)
      = Sync.processItems cfgW []
          { catalog := stHandle2, failCount := 1,
            failures := [(some 42, handleTakenError)], requested := [] }
  ∧ SyncV0.processItems cfgW [itemNoBasic] stC9taken
      = SyncV0.processItems cfgW [] stC9taken :=
  ⟨(claim_C4_per_item_failure cfgW item42 [] (Sync.initState stHandle2) handleTakenError
      rfl itemNoBasic [] stC9taken "TypeError: Cannot read properties of undefined" rfl).1,
   (claim_C4_per_item_failure cfgW item42 [] (Sync.initState stHandle2) handleTakenError
      rfl itemNoBasic [] stC9taken
      "TypeError: Cannot read properties of undefined" rfl).2.2⟩

/-! ### part_000 lookup truncation (C9). -/

/-- One step of the part_000 metafield loop also rewrites products
pointwise, leaving variants untouched. -/
theorem upsertStepV0_pointwise (idx : List Metafield) (pid : Nat) (st : Catalog)
    (e : String × Option String) :
    ∃ f : Product → Product, (SyncV0.upsertStep idx pid st e).products = st.products.map f
      ∧ ∀ q, (f q).variants = q.variants ∧ (f q).id = q.id := by
  cases hm : lastMatch idx e.1 with
  | some m =>
    refine ⟨fun q => { q with metafields := q.metafields.map (fun mf =>
        if mf.id == m.id then { mf with value := e.2.getD "" } else mf) }, ?_, ?_⟩
    · show (SyncV0.upsertStep idx pid st e).products = _
      simp only [SyncV0.upsertStep, hm]
      rfl
    · intro q; exact ⟨rfl, rfl⟩
  | none =>
    refine ⟨fun q => if q.id == pid then
        { q with metafields := q.metafields ++
            [{ id := st.nextMetafieldId,
               ns := (splitOnDot e.1).headD "",
               key := ((splitOnDot e.1).drop 1).headD "",
               type := if ((splitOnDot e.1).drop 1).headD "" = "notes" then
                   "multi_line_text_field" else "single_line_text_field",
               value := e.2.getD "" }] }
      else q, ?_, ?_⟩
    · simp only [SyncV0.upsertStep, hm]
      rfl
    · intro q
      by_cases hq : (q.id == pid) = true
      · dsimp only
        rw [if_pos hq]
        exact ⟨rfl, rfl⟩
      · dsimp only
        rw [if_neg hq]
        exact ⟨rfl, rfl⟩

/-- The whole part_000 metafield loop rewrites products pointwise. -/
theorem upsertLoopV0_pointwise (idx : List Metafield) (pid : Nat) :
    ∀ (kv : List (String × Option String)) (st : Catalog),
    ∃ f : Product → Product, (SyncV0.upsertLoop idx pid st kv).products = st.products.map f
      ∧ ∀ q, (f q).variants = q.variants ∧ (f q).id = q.id := by
  intro kv
  induction kv with
  | nil =>
    intro st
    refine ⟨id, by simp [SyncV0.upsertLoop], fun q => ⟨rfl, rfl⟩⟩
  | cons e rest ih =>
    intro st
    obtain ⟨f1, hf1, hp1⟩ := upsertStepV0_pointwise idx pid st e
    obtain ⟨f2, hf2, hp2⟩ := ih (SyncV0.upsertStep idx pid st e)
    refine ⟨f2 ∘ f1, ?_, ?_⟩
    · rw [SyncV0.upsertLoop, hf2, hf1, List.map_map]
    · intro q
      obtain ⟨v1, i1⟩ := hp1 q
      obtain ⟨v2, i2⟩ := hp2 (f1 q)
      exact ⟨v2.trans v1, i2.trans i1⟩

theorem countSku_products_eq (st st' : Catalog) (h : st'.products = st.products)
    (sku : String) : countSku st' sku = countSku st sku := by
  unfold countSku
  rw [h]

theorem countSku_of_products_map (st st' : Catalog) (f : Product → Product)
    (hmap : st'.products = st.products.map f) (hv : ∀ q, (f q).variants = q.variants)
    (sku : String) : countSku st' sku = countSku st sku := by
  unfold countSku
  rw [hmap, filter_map_pres f _ (fun a => by rw [hv a]), List.length_map]

theorem countSku_createdCatalog (pl : ProductPayload) (st : Catalog) (sku : String)
    (hsku : (createdProduct pl st).variants.any (fun v => v.sku == sku) = true) :
    countSku (createdCatalog pl st) sku = countSku st sku + 1 := by
  unfold countSku createdCatalog
  dsimp only
  rw [List.filter_append]
  simp [hsku]

theorem countSku_pos_of_exists (st : Catalog) (sku : String)
    (h : ∃ p ∈ st.products, p.variants.any (fun v => v.sku == sku) = true) :
    1 ≤ countSku st sku := by
  obtain ⟨p, hp, hpred⟩ := h
  have hmem : p ∈ st.products.filter (fun q => q.variants.any (fun v => v.sku == sku)) :=
    List.mem_filter.mpr ⟨hp, hpred⟩
  have := List.length_pos.mpr (List.ne_nil_of_mem hmem)
  exact this

theorem ite_addToCollection_products (c : Prop) [Decidable c] (h : Option String)
    (pid : Nat) (x : Catalog) :
    (if c then addToCollectionByHandle h pid x else x).products = x.products := by
  split
  · rw [addToCollection_products]
  · rfl

/-- C9 (amended): in the part_000 revision the existing-product lookup
inspects only the first 50 listed products.  Whenever a product bearing the
target SKU exists but is not among those 50, the lookup returns null and
the engine takes the create path; if the computed slug is not already taken
the create succeeds and a second product with the same SKU is stored (at
least two then carry it); if the slug is taken — as when the hidden product
was created from the very same item — the create fails and the error
propagates, so no second product appears. -/
theorem claim_C9_lookup_truncation (cfg : Config) (item : Item) (b : BasicInfo)
    (st : Catalog) (hb : item.basic_information = some b)
    (hmiss : ∀ p ∈ st.products.take 50,
        p.variants.any (fun v => v.sku == Sync.skuOf item) = false)
    (hexists : ∃ p ∈ st.products,
        p.variants.any (fun v => v.sku == Sync.skuOf item) = true) :
    SyncV0.findProductBySkuOrMetafield (Sync.skuOf item) st = none
  ∧ (st.products.any (fun q =>
        q.handle == (SyncV0.createPayloadOf cfg item b).handle) = false →
      ∃ p st', SyncV0.ensureProductFromDiscogsItem cfg item st = .ok (p, st')
        ∧ countSku st' (Sync.skuOf item) = countSku st (Sync.skuOf item) + 1
        ∧ 2 ≤ countSku st' (Sync.skuOf item)
        ∧ st'.products.length = st.products.length + 1)
  ∧ (st.products.any (fun q =>
        q.handle == (SyncV0.createPayloadOf cfg item b).handle) = true →
      SyncV0.ensureProductFromDiscogsItem cfg item st = .error handleTakenError) := by
  have hfind : SyncV0.findProductBySkuOrMetafield (Sync.skuOf item) st = none := by
    unfold SyncV0.findProductBySkuOrMetafield
    rw [List.find?_eq_none]
    intro p hp
    rw [hmiss p hp]
    exact Bool.false_ne_true
  refine ⟨hfind, ?_, ?_⟩
  · intro hfree
    have hok : createProduct (SyncV0.createPayloadOf cfg item b) st
        = .ok (createdProduct (SyncV0.createPayloadOf cfg item b) st,
               createdCatalog (SyncV0.createPayloadOf cfg item b) st) := by
      unfold createProduct
      rw [if_neg (by rw [hfree]; exact Bool.false_ne_true)]
    have heq : SyncV0.ensureProductFromDiscogsItem cfg item st
        = .ok (createdProduct (SyncV0.createPayloadOf cfg item b) st,
            if (truthyS cfg.collectionHandle).isSome = true then
              addToCollectionByHandle cfg.collectionHandle
                (createdProduct (SyncV0.createPayloadOf cfg item b) st).id
                (SyncV0.upsertProductMetafields
                  (createdProduct (SyncV0.createPayloadOf cfg item b) st).id
                  (SyncV0.kvMap item)
                  (SyncV0.setInventory (createdCatalog (SyncV0.createPayloadOf cfg item b) st)))
            else
              SyncV0.upsertProductMetafields
                (createdProduct (SyncV0.createPayloadOf cfg item b) st).id
                (SyncV0.kvMap item)
                (SyncV0.setInventory (createdCatalog (SyncV0.createPayloadOf cfg item b) st))) := by
      simp only [SyncV0.ensureProductFromDiscogsItem, hb, hfind, hok]
    have hcount : countSku
        (if (truthyS cfg.collectionHandle).isSome = true then
          addToCollectionByHandle cfg.collectionHandle
            (createdProduct (SyncV0.createPayloadOf cfg item b) st).id
            (SyncV0.upsertProductMetafields
              (createdProduct (SyncV0.createPayloadOf cfg item b) st).id
              (SyncV0.kvMap item)
              (SyncV0.setInventory (createdCatalog (SyncV0.createPayloadOf cfg item b) st)))
        else
          SyncV0.upsertProductMetafields
            (createdProduct (SyncV0.createPayloadOf cfg item b) st).id
            (SyncV0.kvMap item)
            (SyncV0.setInventory (createdCatalog (SyncV0.createPayloadOf cfg item b) st)))
        (Sync.skuOf item) = countSku st (Sync.skuOf item) + 1 := by
      rw [countSku_products_eq _ _ (ite_addToCollection_products _ _ _ _)]
      unfold SyncV0.upsertProductMetafields
      obtain ⟨f, hf, hfp⟩ := upsertLoopV0_pointwise
        (mfsOf (SyncV0.setInventory (createdCatalog (SyncV0.createPayloadOf cfg item b) st))
          (createdProduct (SyncV0.createPayloadOf cfg item b) st).id)
        (createdProduct (SyncV0.createPayloadOf cfg item b) st).id
        (SyncV0.kvMap item)
        (SyncV0.setInventory (createdCatalog (SyncV0.createPayloadOf cfg item b) st))
      rw [countSku_of_products_map _ _ f hf (fun q => (hfp q).1)]
      exact countSku_createdCatalog _ _ _ (by simp [createdProduct, SyncV0.createPayloadOf])
    have hlen : (if (truthyS cfg.collectionHandle).isSome = true then
          addToCollectionByHandle cfg.collectionHandle
            (createdProduct (SyncV0.createPayloadOf cfg item b) st).id
            (SyncV0.upsertProductMetafields
              (createdProduct (SyncV0.createPayloadOf cfg item b) st).id
              (SyncV0.kvMap item)
              (SyncV0.setInventory (createdCatalog (SyncV0.createPayloadOf cfg item b) st)))
        else
          SyncV0.upsertProductMetafields
            (createdProduct (SyncV0.createPayloadOf cfg item b) st).id
            (SyncV0.kvMap item)
            (SyncV0.setInventory (createdCatalog (SyncV0.createPayloadOf cfg item b) st))).products.length
        = st.products.length + 1 := by
      rw [ite_addToCollection_products]
      unfold SyncV0.upsertProductMetafields
      obtain ⟨f, hf, hfp⟩ := upsertLoopV0_pointwise
        (mfsOf (SyncV0.setInventory (createdCatalog (SyncV0.createPayloadOf cfg item b) st))
          (createdProduct (SyncV0.createPayloadOf cfg item b) st).id)
        (createdProduct (SyncV0.createPayloadOf cfg item b) st).id
        (SyncV0.kvMap item)
        (SyncV0.setInventory (createdCatalog (SyncV0.createPayloadOf cfg item b) st))
      rw [hf, List.length_map]
      simp [SyncV0.setInventory, createdCatalog]
    refine ⟨_, _, heq, hcount, ?_, hlen⟩
    rw [hcount]
    have h1 := countSku_pos_of_exists st (Sync.skuOf item) hexists
    omega
  · intro htaken
    have herr : createProduct (SyncV0.createPayloadOf cfg item b) st
        = .error handleTakenError := by
      unfold createProduct
      rw [if_pos htaken]
    simp only [SyncV0.ensureProductFromDiscogsItem, hb, hfind, herr]

/-- C9 counterexample: in `stC9taken` the product carrying `DCG-42` is the
51st listed product and holds `item42`'s slug.  The lookup misses it and
the engine takes the create path as the claim says — but the create then
fails on the slug collision and the error propagates, so no second product
is produced, refuting the claim's universally asserted outcome. -/
theorem claim_C9_lookup_truncation_cex :
    SyncV0.findProductBySkuOrMetafield (Sync.skuOf item42) stC9taken = none
  ∧ SyncV0.ensureProductFromDiscogsItem cfgW item42 stC9taken = .error handleTakenError
  ∧ countSku stC9taken (Sync.skuOf item42) = 1 := by
  refine ⟨by decide, rfl, by decide⟩

/-- C9 witness: in `stC9free` the hidden product holds a different slug, so
the missed lookup leads to a duplicate: the engine stores a second product
with SKU `DCG-42`. -/
theorem claim_C9_lookup_truncation_witness :
    SyncV0.findProductBySkuOrMetafield (Sync.skuOf item42) stC9free = none
  ∧ (∃ p st', SyncV0.ensureProductFromDiscogsItem cfgW item42 stC9free = .ok (p, st')
      ∧ countSku st' (Sync.skuOf item42) = countSku stC9free (Sync.skuOf item42) + 1
      ∧ 2 ≤ countSku st' (Sync.skuOf item42)
      ∧ st'.products.length = stC9free.products.length + 1) := by
  have h := claim_C9_lookup_truncation cfgW item42
    { id := none, master_id := none, title := some "Blue",
      artists := some [{ name := "Joni Mitchell" }], year := some 1971,
      labels := none, catno := none, barcode := none, formats := none,
      cover_image := none, thumb := none, images := none }
    stC9free rfl (by decide) (by decide)
  exact ⟨h.1, h.2.1 (by decide)⟩

/-- Pointwise rewriting relates a list to its image. -/
theorem forall2_map_self {α : Type} (R : α → α → Prop) (F : α → α)
    (l : List α) (h : ∀ x, R x (F x)) : List.Forall₂ R l (l.map F) := by
  induction l with
  | nil => exact List.Forall₂.nil
  | cons a t ih => exact List.Forall₂.cons (h a) ih

/-- C8: on the update path (an existing product found by SKU) the engine
submits only `{ id, tags }`: in the resulting store every product keeps its
title, description, handle, status, vendor, type, variants and images
(pointwise along the product list); only products with the matched id get
the freshly computed tag string, and every other product's tags are
untouched. -/
theorem claim_C8_update_path_minimal (cfg : Config) (item : Item) (st : Catalog)
    (p : Product)
    (hfind : Sync.findProductBySkuOrMetafield (Sync.skuOf item) st = some p) :
    ∃ st', Sync.ensureProductFromDiscogsItem cfg item st = .ok (p, st')
      ∧ st'.products.length = st.products.length
      ∧ List.Forall₂ (fun q q' => coreEq q q'
          ∧ (q.id ≠ p.id → q'.tags = q.tags)
          ∧ (q.id = p.id → q'.tags = Sync.tagsStringOf item))
        st.products st'.products := by
  have heq : Sync.ensureProductFromDiscogsItem cfg item st
      = .ok (p, addToCollectionByHandle cfg.collectionHandle p.id
          (Sync.upsertProductMetafields p.id (Sync.kvMap item)
            (updateProductTags p.id (Sync.tagsStringOf item) st))) := by
    simp only [Sync.ensureProductFromDiscogsItem, hfind]
  obtain ⟨f, hf, hfp⟩ := upsertLoop_pointwise
    (mfsOf (updateProductTags p.id (Sync.tagsStringOf item) st) p.id) p.id
    (Sync.kvMap item) (updateProductTags p.id (Sync.tagsStringOf item) st)
  have hprod : (addToCollectionByHandle cfg.collectionHandle p.id
      (Sync.upsertProductMetafields p.id (Sync.kvMap item)
        (updateProductTags p.id (Sync.tagsStringOf item) st))).products
      = st.products.map (fun q =>
          f (if q.id == p.id then { q with tags := Sync.tagsStringOf item } else q)) := by
    rw [addToCollection_products]
    show (Sync.upsertLoop
        (mfsOf (updateProductTags p.id (Sync.tagsStringOf item) st) p.id) p.id
        (updateProductTags p.id (Sync.tagsStringOf item) st) (Sync.kvMap item)).products = _
    rw [hf]
    show ((st.products.map (fun q =>
        if q.id == p.id then { q with tags := Sync.tagsStringOf item } else q)).map f) = _
    rw [List.map_map]
    rfl
  refine ⟨_, heq, ?_, ?_⟩
  · rw [hprod, List.length_map]
  · rw [hprod]
    apply forall2_map_self
    intro q
    by_cases hq : (q.id == p.id) = true
    · rw [if_pos hq]
      obtain ⟨hc, ht, -, -⟩ := hfp { q with tags := Sync.tagsStringOf item }
      refine ⟨coreEq_trans ⟨rfl, rfl, rfl, rfl, rfl, rfl, rfl, rfl, rfl⟩ hc, ?_, fun _ => ht⟩
      intro hne
      exact absurd (beq_iff_eq.mp hq) hne
    · rw [if_neg hq]
      obtain ⟨hc, ht, -, -⟩ := hfp q
      refine ⟨hc, fun _ => ht, ?_⟩
      intro hid
      exact absurd (beq_iff_eq.mpr hid) (by simpa using hq)

/-- C8 witness: a second sync of an item whose product is already in the
store (found by SKU) patches only its tags. -/
theorem claim_C8_update_path_minimal_witness :
    ∃ st', Sync.ensureProductFromDiscogsItem cfgW item42 stC9free
        = .ok (mkProductW 51 "blue-42-dcg-42" "DCG-42", st')
      ∧ st'.products.length = stC9free.products.length
      ∧ List.Forall₂ (fun q q' => coreEq q q'
          ∧ (q.id ≠ (mkProductW 51 "blue-42-dcg-42" "DCG-42").id → q'.tags = q.tags)
          ∧ (q.id = (mkProductW 51 "blue-42-dcg-42" "DCG-42").id →
              q'.tags = Sync.tagsStringOf item42))
        stC9free.products st'.products :=
  claim_C8_update_path_minimal cfgW item42 stC9free
    (mkProductW 51 "blue-42-dcg-42" "DCG-42") (by decide)

/-! ### Idempotence machinery (C1). -/

theorem mem_of_getLast? {α : Type} {l : List α} {a : α} (h : l.getLast? = some a) :
    a ∈ l := by
  induction l with
  | nil => simp at h
  | cons b t ih =>
    cases t with
    | nil =>
      simp only [List.getLast?_singleton, Option.some.injEq] at h
      simp [h]
    | cons c r =>
      rw [List.getLast?_cons_cons] at h
      exact List.mem_cons_of_mem _ (ih h)

theorem map_id_of_forall {α : Type} {l : List α} {f : α → α} (h : ∀ a ∈ l, f a = a) :
    l.map f = l :=
  (List.map_congr_left h).trans (List.map_id l)

/-- The GET metafields endpoint only depends on the product list. -/
theorem mfsOf_products_eq (st st' : Catalog) (h : st'.products = st.products) (pid : Nat) :
    mfsOf st' pid = mfsOf st pid := by
  rw [mfsOf_eq, mfsOf_eq, h]

theorem mfValue_products_eq (st st' : Catalog) (h : st'.products = st.products)
    (pid : Nat) (full : String) : mfValue st' pid full = mfValue st pid full := by
  unfold mfValue
  rw [mfsOf_products_eq st st' h]

/-- The tag PUT does not touch metafields as served for any product. -/
theorem mfsOf_updateTags (pid2 : Nat) (tags : String) (st : Catalog) (pid : Nat) :
    mfsOf (updateProductTags pid2 tags st) pid = mfsOf st pid := by
  have hfind : (updateProductTags pid2 tags st).products.find? (fun q => q.id == pid)
      = (st.products.find? (fun q => q.id == pid)).map
          (fun q => if q.id == pid2 then { q with tags := tags } else q) :=
    find?_map_pres (fun q => if q.id == pid2 then { q with tags := tags } else q)
      (fun q => q.id == pid)
      (fun a => by
        dsimp only
        by_cases h : (a.id == pid2) = true
        · rw [if_pos h]
        · rw [if_neg h]) st.products
  rw [mfsOf_eq, mfsOf_eq, hfind]
  cases hf : st.products.find? (fun q => q.id == pid) with
  | none => rfl
  | some q =>
    simp only [Option.map_some', Option.getD_some]
    by_cases h : (q.id == pid2) = true
    · rw [if_pos h]
    · rw [if_neg h]

/-- The entry list under any `namespace.key` after a PUT is the value-
rewritten entry list before it. -/
theorem fullEntries_put (mid : Nat) (w : String) (st : Catalog) (pid : Nat) (full2 : String) :
    fullEntries (mfsOf (putMetafieldValue mid w st) pid) full2
      = (fullEntries (mfsOf st pid) full2).map
          (fun m => if m.id == mid then { m with value := w } else m) := by
  rw [mfsOf_put]
  unfold fullEntries
  exact filter_map_pres _ _ (fun m => by
    by_cases h : (m.id == mid) = true
    · rw [if_pos h]; rfl
    · rw [if_neg h]) _

theorem pres_put (mid : Nat) (w : String) (st : Catalog) (pid : Nat)
    (h : (st.products.find? (fun r => r.id == pid)).isSome = true) :
    ((putMetafieldValue mid w st).products.find? (fun r => r.id == pid)).isSome = true := by
  have hfind : (putMetafieldValue mid w st).products.find? (fun r => r.id == pid)
      = (st.products.find? (fun r => r.id == pid)).map
          (fun q => { q with metafields := q.metafields.map (fun m =>
              if m.id == mid then { m with value := w } else m) }) :=
    find?_map_pres
      (fun q => { q with metafields := q.metafields.map (fun m =>
          if m.id == mid then { m with value := w } else m) })
      (fun r => r.id == pid) (fun a => rfl) st.products
  rw [hfind, Option.isSome_map']
  exact h

theorem pres_post (pid : Nat) (ns key ty w : String) (st : Catalog)
    (h : (st.products.find? (fun r => r.id == pid)).isSome = true) :
    ((postMetafield pid ns key ty w st).products.find?
      (fun r => r.id == pid)).isSome = true := by
  have hfind : (postMetafield pid ns key ty w st).products.find? (fun r => r.id == pid)
      = (st.products.find? (fun r => r.id == pid)).map (fun r =>
          if r.id == pid then { r with metafields := r.metafields ++
            [{ id := st.nextMetafieldId, ns := ns, key := key, type := ty, value := w }] }
          else r) :=
    find?_map_pres
      (fun r => if r.id == pid then { r with metafields := r.metafields ++
          [{ id := st.nextMetafieldId, ns := ns, key := key, type := ty, value := w }] }
        else r)
      (fun r => r.id == pid) (fun a => postF_id_pres pid _ a) st.products
  rw [hfind, Option.isSome_map']
  exact h

/-- The full key of the metafield created for entry `e` is `e.1` whenever
`e.1` is of the canonical `namespace.key` shape. -/
theorem fullKey_new (e1 : String) (stn : Nat) (ty w : String)
    (hcanon : (splitOnDot e1).headD "" ++ "." ++ ((splitOnDot e1).drop 1).headD "" = e1) :
    fullKeyOf { id := stn, ns := (splitOnDot e1).headD "",
                key := ((splitOnDot e1).drop 1).headD "", type := ty, value := w } = e1 := by
  unfold fullKeyOf
  exact hcanon

/-- Distinct full keys mean distinct ids inside a Nodup-id index. -/
theorem id_ne_of_keys_ne (idx : List Metafield)
    (hnodup : (idx.map Metafield.id).Nodup)
    {m m' : Metafield} (hm : m ∈ idx) (hm' : m' ∈ idx)
    (hk : fullKeyOf m ≠ fullKeyOf m') : m.id ≠ m'.id := by
  intro hid
  exact hk (congrArg fullKeyOf (List.inj_on_of_nodup_map hnodup hm hm' hid))

/-- A loop step for a key other than `full` leaves the entry list under
`full` exactly as in the loop-entry index. -/
theorem upsertStep_pre (idx : List Metafield) (pid n0 : Nat) (full : String)
    (st : Catalog) (e : String × Option String)
    (hnodup : (idx.map Metafield.id).Nodup)
    (hbound : ∀ m ∈ idx, m.id < n0)
    (hne : e.1 ≠ full)
    (hcanon : (splitOnDot e.1).headD "" ++ "." ++ ((splitOnDot e.1).drop 1).headD "" = e.1)
    (hpre : fullEntries (mfsOf st pid) full = fullEntries idx full)
    (hnext : n0 ≤ st.nextMetafieldId)
    (hpres : (st.products.find? (fun r => r.id == pid)).isSome = true) :
    fullEntries (mfsOf (Sync.upsertStep idx pid st e) pid) full = fullEntries idx full
  ∧ n0 ≤ (Sync.upsertStep idx pid st e).nextMetafieldId
  ∧ ((Sync.upsertStep idx pid st e).products.find? (fun r => r.id == pid)).isSome
      = true := by
  by_cases hb : sTrim (e.2.getD "") = ""
  · rw [upsertStep_blank idx pid st e hb]
    exact ⟨hpre, hnext, hpres⟩
  · cases hm : lastMatch idx e.1 with
    | some m' =>
      rw [upsertStep_put idx pid st e m' hb hm]
      refine ⟨?_, hnext, pres_put _ _ _ _ hpres⟩
      rw [fullEntries_put, hpre]
      apply map_id_of_forall
      intro m hmem
      have hmidx : m ∈ idx := (List.mem_filter.mp hmem).1
      have hkey : fullKeyOf m = full := beq_iff_eq.mp (List.mem_filter.mp hmem).2
      have hm'mem : m' ∈ fullEntries idx e.1 := mem_of_getLast? hm
      have hm'idx : m' ∈ idx := (List.mem_filter.mp hm'mem).1
      have hm'key : fullKeyOf m' = e.1 := beq_iff_eq.mp (List.mem_filter.mp hm'mem).2
      have hidne : m.id ≠ m'.id :=
        id_ne_of_keys_ne idx hnodup hmidx hm'idx
          (by rw [hkey, hm'key]; exact fun h => hne h.symm)
      rw [if_neg (by simpa using hidne)]
    | none =>
      rw [upsertStep_post idx pid st e hb hm]
      obtain ⟨q, hq⟩ := Option.isSome_iff_exists.mp hpres
      refine ⟨?_, Nat.le_succ_of_le hnext, pres_post _ _ _ _ _ _ hpres⟩
      rw [mfsOf_post _ _ _ _ _ st q hq]
      unfold fullEntries
      rw [List.filter_append]
      have hkeynew : (fullKeyOf (Metafield.mk st.nextMetafieldId
          ((splitOnDot e.1).headD "") (((splitOnDot e.1).drop 1).headD "")
          (if ((splitOnDot e.1).drop 1).headD "" = "notes" then
              "multi_line_text_field" else "single_line_text_field")
          (sTrim (e.2.getD ""))) == full) = false := by
        rw [fullKey_new _ _ _ _ hcanon]
        exact beq_eq_false_iff_ne.mpr hne
      rw [List.filter_cons, List.filter_nil,
        if_neg (by rw [hkeynew]; exact Bool.false_ne_true), List.append_nil]
      exact hpre

/-- The loop step for `full` itself installs the trimmed value as the last
entry under `full`, at an id that is either an index id under `full` or a
freshly allocated one. -/
theorem upsertStep_establish (idx : List Metafield) (pid n0 : Nat)
    (st : Catalog) (full : String) (raw : Option String)
    (hnodup : (idx.map Metafield.id).Nodup)
    (hbound : ∀ m ∈ idx, m.id < n0)
    (hv : sTrim (raw.getD "") ≠ "")
    (hcanon : (splitOnDot full).headD "" ++ "." ++ ((splitOnDot full).drop 1).headD ""
        = full)
    (hpre : fullEntries (mfsOf st pid) full = fullEntries idx full)
    (hnext : n0 ≤ st.nextMetafieldId)
    (hpres : (st.products.find? (fun r => r.id == pid)).isSome = true) :
    (∃ m0, lastMatch (mfsOf (Sync.upsertStep idx pid st (full, raw)) pid) full = some m0
      ∧ m0.value = sTrim (raw.getD "")
      ∧ (m0.id ∈ (fullEntries idx full).map Metafield.id ∨ n0 ≤ m0.id))
  ∧ n0 ≤ (Sync.upsertStep idx pid st (full, raw)).nextMetafieldId
  ∧ ((Sync.upsertStep idx pid st (full, raw)).products.find?
      (fun r => r.id == pid)).isSome = true := by
  cases hm : lastMatch idx full with
  | some m =>
    rw [upsertStep_put idx pid st (full, raw) m hv hm]
    refine ⟨⟨{ m with value := sTrim (raw.getD "") }, ?_, rfl, ?_⟩,
      hnext, pres_put _ _ _ _ hpres⟩
    · unfold lastMatch
      rw [fullEntries_put, hpre, List.getLast?_map]
      unfold lastMatch at hm
      rw [hm]
      simp
    · left
      exact List.mem_map.mpr ⟨m, mem_of_getLast? hm, rfl⟩
  | none =>
    rw [upsertStep_post idx pid st (full, raw) hv hm]
    obtain ⟨q, hq⟩ := Option.isSome_iff_exists.mp hpres
    have hempty : fullEntries idx full = [] := by
      unfold lastMatch at hm
      exact List.getLast?_eq_none.mp hm
    refine ⟨⟨Metafield.mk st.nextMetafieldId
        ((splitOnDot full).headD "") (((splitOnDot full).drop 1).headD "")
        (if ((splitOnDot full).drop 1).headD "" = "notes" then
            "multi_line_text_field" else "single_line_text_field")
        (sTrim (raw.getD "")), ?_, rfl, Or.inr hnext⟩,
      Nat.le_succ_of_le hnext, pres_post _ _ _ _ _ _ hpres⟩
    unfold lastMatch
    rw [mfsOf_post _ _ _ _ _ st q hq]
    unfold fullEntries
    rw [List.filter_append]
    have hkeynew : (fullKeyOf (Metafield.mk st.nextMetafieldId
        ((splitOnDot full).headD "") (((splitOnDot full).drop 1).headD "")
        (if ((splitOnDot full).drop 1).headD "" = "notes" then
            "multi_line_text_field" else "single_line_text_field")
        (sTrim (raw.getD ""))) == full) = true := by
      rw [fullKey_new _ _ _ _ hcanon]
      exact beq_self_eq_true full
    have hfe : fullEntries (mfsOf st pid) full = [] := hpre.trans hempty
    unfold fullEntries at hfe
    rw [hfe, List.nil_append, List.filter_cons, List.filter_nil, if_pos hkeynew]
    rfl

/-- A later loop step for a key other than `full` keeps the installed value
in place. -/
theorem upsertStep_good (idx : List Metafield) (pid n0 : Nat) (full : String)
    (v : String) (st : Catalog) (e : String × Option String)
    (hnodup : (idx.map Metafield.id).Nodup)
    (hbound : ∀ m ∈ idx, m.id < n0)
    (hne : e.1 ≠ full)
    (hcanon : (splitOnDot e.1).headD "" ++ "." ++ ((splitOnDot e.1).drop 1).headD "" = e.1)
    (hgood : ∃ m0, lastMatch (mfsOf st pid) full = some m0 ∧ m0.value = v
      ∧ (m0.id ∈ (fullEntries idx full).map Metafield.id ∨ n0 ≤ m0.id))
    (hnext : n0 ≤ st.nextMetafieldId)
    (hpres : (st.products.find? (fun r => r.id == pid)).isSome = true) :
    (∃ m0, lastMatch (mfsOf (Sync.upsertStep idx pid st e) pid) full = some m0
      ∧ m0.value = v
      ∧ (m0.id ∈ (fullEntries idx full).map Metafield.id ∨ n0 ≤ m0.id))
  ∧ n0 ≤ (Sync.upsertStep idx pid st e).nextMetafieldId
  ∧ ((Sync.upsertStep idx pid st e).products.find? (fun r => r.id == pid)).isSome
      = true := by
  obtain ⟨m0, hlast, hval, hid⟩ := hgood
  by_cases hb : sTrim (e.2.getD "") = ""
  · rw [upsertStep_blank idx pid st e hb]
    exact ⟨⟨m0, hlast, hval, hid⟩, hnext, hpres⟩
  · cases hm : lastMatch idx e.1 with
    | some m' =>
      rw [upsertStep_put idx pid st e m' hb hm]
      have hm'mem : m' ∈ fullEntries idx e.1 := mem_of_getLast? hm
      have hm'idx : m' ∈ idx := (List.mem_filter.mp hm'mem).1
      have hm'key : fullKeyOf m' = e.1 := beq_iff_eq.mp (List.mem_filter.mp hm'mem).2
      have hidne : m0.id ≠ m'.id := by
        rcases hid with hin | hge
        · obtain ⟨ma, hmamem, hmaid⟩ := List.mem_map.mp hin
          have hmaidx : ma ∈ idx := (List.mem_filter.mp hmamem).1
          have hmakey : fullKeyOf ma = full := beq_iff_eq.mp (List.mem_filter.mp hmamem).2
          rw [← hmaid]
          exact id_ne_of_keys_ne idx hnodup hmaidx hm'idx
            (by rw [hmakey, hm'key]; exact fun h => hne h.symm)
        · have hlt : m'.id < n0 := hbound m' hm'idx
          omega
      refine ⟨⟨m0, ?_, hval, hid⟩, hnext, pres_put _ _ _ _ hpres⟩
      unfold lastMatch
      rw [fullEntries_put]
      rw [List.getLast?_map]
      unfold lastMatch at hlast
      rw [hlast]
      simp only [Option.map_some', Option.some.injEq]
      rw [if_neg (by simpa using hidne)]
    | none =>
      rw [upsertStep_post idx pid st e hb hm]
      obtain ⟨q, hq⟩ := Option.isSome_iff_exists.mp hpres
      refine ⟨⟨m0, ?_, hval, ?_⟩, Nat.le_succ_of_le hnext, pres_post _ _ _ _ _ _ hpres⟩
      · unfold lastMatch
        rw [mfsOf_post _ _ _ _ _ st q hq]
        unfold fullEntries
        rw [List.filter_append]
        have hkeynew : (fullKeyOf (Metafield.mk st.nextMetafieldId
            ((splitOnDot e.1).headD "") (((splitOnDot e.1).drop 1).headD "")
            (if ((splitOnDot e.1).drop 1).headD "" = "notes" then
                "multi_line_text_field" else "single_line_text_field")
            (sTrim (e.2.getD ""))) == full) = false := by
          rw [fullKey_new _ _ _ _ hcanon]
          exact beq_eq_false_iff_ne.mpr hne
        rw [List.filter_cons, List.filter_nil,
          if_neg (by rw [hkeynew]; exact Bool.false_ne_true), List.append_nil]
        exact hlast
      · exact hid

theorem upsertLoop_append (idx : List Metafield) (pid : Nat) :
    ∀ (l1 l2 : List (String × Option String)) (st : Catalog),
      Sync.upsertLoop idx pid st (l1 ++ l2)
        = Sync.upsertLoop idx pid (Sync.upsertLoop idx pid st l1) l2 := by
  intro l1
  induction l1 with
  | nil => intro l2 st; rfl
  | cons e rest ih =>
    intro l2 st
    rw [List.cons_append, Sync.upsertLoop, Sync.upsertLoop]
    exact ih l2 _

/-- Running loop steps whose keys all differ from `full` leaves the entry
list under `full` at its loop-entry value. -/
theorem upsertLoop_pre (idx : List Metafield) (pid n0 : Nat) (full : String)
    (hnodup : (idx.map Metafield.id).Nodup)
    (hbound : ∀ m ∈ idx, m.id < n0) :
    ∀ (kv : List (String × Option String)) (st : Catalog),
    (∀ e ∈ kv, e.1 ≠ full
      ∧ (splitOnDot e.1).headD "" ++ "." ++ ((splitOnDot e.1).drop 1).headD "" = e.1) →
    fullEntries (mfsOf st pid) full = fullEntries idx full →
    n0 ≤ st.nextMetafieldId →
    (st.products.find? (fun r => r.id == pid)).isSome = true →
    fullEntries (mfsOf (Sync.upsertLoop idx pid st kv) pid) full = fullEntries idx full
  ∧ n0 ≤ (Sync.upsertLoop idx pid st kv).nextMetafieldId
  ∧ ((Sync.upsertLoop idx pid st kv).products.find? (fun r => r.id == pid)).isSome
      = true := by
  intro kv
  induction kv with
  | nil => intro st hall hpre hnext hpres; exact ⟨hpre, hnext, hpres⟩
  | cons e rest ih =>
    intro st hall hpre hnext hpres
    obtain ⟨hp1, hn1, hs1⟩ := upsertStep_pre idx pid n0 full st e hnodup hbound
      (hall e (List.mem_cons_self e rest)).1 (hall e (List.mem_cons_self e rest)).2
      hpre hnext hpres
    exact ih _ (fun x hx => hall x (List.mem_cons_of_mem e hx)) hp1 hn1 hs1

/-- Running loop steps whose keys all differ from `full` keeps the
installed value under `full`. -/
theorem upsertLoop_good (idx : List Metafield) (pid n0 : Nat) (full v : String)
    (hnodup : (idx.map Metafield.id).Nodup)
    (hbound : ∀ m ∈ idx, m.id < n0) :
    ∀ (kv : List (String × Option String)) (st : Catalog),
    (∀ e ∈ kv, e.1 ≠ full
      ∧ (splitOnDot e.1).headD "" ++ "." ++ ((splitOnDot e.1).drop 1).headD "" = e.1) →
    (∃ m0, lastMatch (mfsOf st pid) full = some m0 ∧ m0.value = v
      ∧ (m0.id ∈ (fullEntries idx full).map Metafield.id ∨ n0 ≤ m0.id)) →
    n0 ≤ st.nextMetafieldId →
    (st.products.find? (fun r => r.id == pid)).isSome = true →
    (∃ m0, lastMatch (mfsOf (Sync.upsertLoop idx pid st kv) pid) full = some m0
      ∧ m0.value = v
      ∧ (m0.id ∈ (fullEntries idx full).map Metafield.id ∨ n0 ≤ m0.id))
  ∧ n0 ≤ (Sync.upsertLoop idx pid st kv).nextMetafieldId
  ∧ ((Sync.upsertLoop idx pid st kv).products.find? (fun r => r.id == pid)).isSome
      = true := by
  intro kv
  induction kv with
  | nil => intro st hall hgood hnext hpres; exact ⟨hgood, hnext, hpres⟩
  | cons e rest ih =>
    intro st hall hgood hnext hpres
    obtain ⟨hg1, hn1, hs1⟩ := upsertStep_good idx pid n0 full v st e hnodup hbound
      (hall e (List.mem_cons_self e rest)).1 (hall e (List.mem_cons_self e rest)).2
      hgood hnext hpres
    exact ih _ (fun x hx => hall x (List.mem_cons_of_mem e hx)) hg1 hn1 hs1

/-- After the metafield upsert, every non-blank field of a Nodup-keyed
canonical map is served with its trimmed value. -/
theorem upsertProductMetafields_value (pid : Nat)
    (kv : List (String × Option String)) (st : Catalog) (full : String)
    (raw : Option String)
    (hnodup : ((mfsOf st pid).map Metafield.id).Nodup)
    (hbound : ∀ m ∈ mfsOf st pid, m.id < st.nextMetafieldId)
    (hpres : (st.products.find? (fun r => r.id == pid)).isSome = true)
    (hkeys : (kv.map Prod.fst).Nodup)
    (hcanon : ∀ e ∈ kv,
      (splitOnDot e.1).headD "" ++ "." ++ ((splitOnDot e.1).drop 1).headD "" = e.1)
    (hmem : (full, raw) ∈ kv)
    (hv : sTrim (raw.getD "") ≠ "") :
    mfValue (Sync.upsertProductMetafields pid kv st) pid full
      = some (sTrim (raw.getD "")) := by
  obtain ⟨l1, l2, rfl⟩ := List.append_of_mem hmem
  have hmap : ((l1 ++ (full, raw) :: l2).map Prod.fst)
      = l1.map Prod.fst ++ full :: l2.map Prod.fst := by simp
  rw [hmap, List.nodup_append] at hkeys
  obtain ⟨hk1, hk2, hdisj⟩ := hkeys
  have hful1 : ∀ e ∈ l1, e.1 ≠ full := by
    intro e he heq
    exact hdisj (heq ▸ List.mem_map_of_mem Prod.fst he) (List.mem_cons_self _ _)
  have hful2 : ∀ e ∈ l2, e.1 ≠ full := by
    intro e he heq
    exact (List.nodup_cons.mp hk2).1 (heq ▸ List.mem_map_of_mem Prod.fst he)
  have hcanonfull := hcanon (full, raw) hmem
  unfold Sync.upsertProductMetafields
  rw [upsertLoop_append]
  obtain ⟨hp1, hn1, hs1⟩ := upsertLoop_pre (mfsOf st pid) pid st.nextMetafieldId full
    hnodup hbound l1 st
    (fun e he => ⟨hful1 e he, hcanon e (List.mem_append_left _ he)⟩)
    rfl (Nat.le_refl _) hpres
  rw [Sync.upsertLoop]
  obtain ⟨hg2, hn2, hs2⟩ := upsertStep_establish (mfsOf st pid) pid st.nextMetafieldId
    (Sync.upsertLoop (mfsOf st pid) pid st l1) full raw hnodup hbound hv hcanonfull
    hp1 hn1 hs1
  obtain ⟨⟨m0, hlast, hval, -⟩, -, -⟩ := upsertLoop_good (mfsOf st pid) pid
    st.nextMetafieldId full (sTrim (raw.getD "")) hnodup hbound l2 _
    (fun e he => ⟨hful2 e he,
      hcanon e (List.mem_append_right _ (List.mem_cons_of_mem _ he))⟩)
    hg2 hn2 hs2
  unfold mfValue
  rw [hlast, Option.map_some', hval]

/-- One upsert step keeps the served metafield ids distinct and below the
allocation counter, which itself only grows. -/
theorem upsertStep_ids (idx : List Metafield) (pid : Nat) (st : Catalog)
    (e : String × Option String)
    (hnd : ((mfsOf st pid).map Metafield.id).Nodup)
    (hbd : ∀ m ∈ mfsOf st pid, m.id < st.nextMetafieldId)
    (hpres : (st.products.find? (fun r => r.id == pid)).isSome = true) :
    ((mfsOf (Sync.upsertStep idx pid st e) pid).map Metafield.id).Nodup
  ∧ (∀ m ∈ mfsOf (Sync.upsertStep idx pid st e) pid,
      m.id < (Sync.upsertStep idx pid st e).nextMetafieldId)
  ∧ st.nextMetafieldId ≤ (Sync.upsertStep idx pid st e).nextMetafieldId
  ∧ ((Sync.upsertStep idx pid st e).products.find? (fun r => r.id == pid)).isSome
      = true := by
  by_cases hb : sTrim (e.2.getD "") = ""
  · rw [upsertStep_blank idx pid st e hb]
    exact ⟨hnd, hbd, Nat.le_refl _, hpres⟩
  · cases hm : lastMatch idx e.1 with
    | some m' =>
      rw [upsertStep_put idx pid st e m' hb hm]
      have hids : (mfsOf (putMetafieldValue m'.id (sTrim (e.2.getD "")) st) pid).map
          Metafield.id = (mfsOf st pid).map Metafield.id := by
        rw [mfsOf_put, List.map_map]
        apply List.map_congr_left
        intro m hmmem
        show (if m.id == m'.id then { m with value := sTrim (e.2.getD "") } else m).id
          = m.id
        by_cases h : (m.id == m'.id) = true
        · rw [if_pos h]
        · rw [if_neg h]
      refine ⟨hids ▸ hnd, ?_, Nat.le_refl _, pres_put _ _ _ _ hpres⟩
      intro m hmmem
      rw [mfsOf_put] at hmmem
      obtain ⟨m1, hm1, rfl⟩ := List.mem_map.mp hmmem
      have hlt := hbd m1 hm1
      by_cases h : (m1.id == m'.id) = true
      · rw [if_pos h]; exact hlt
      · rw [if_neg h]; exact hlt
    | none =>
      rw [upsertStep_post idx pid st e hb hm]
      obtain ⟨q, hq⟩ := Option.isSome_iff_exists.mp hpres
      rw [mfsOf_post _ _ _ _ _ st q hq]
      refine ⟨?_, ?_, Nat.le_succ _, pres_post _ _ _ _ _ _ hpres⟩
      · rw [List.map_append]
        rw [List.nodup_append]
        refine ⟨hnd, List.nodup_singleton _, ?_⟩
        intro a ha hb2
        simp only [List.map_cons, List.map_nil, List.mem_singleton] at hb2
        obtain ⟨m1, hm1, rfl⟩ := List.mem_map.mp ha
        have := hbd m1 hm1
        omega
      · intro m hmmem
        rcases List.mem_append.mp hmmem with hin | hin
        · have := hbd m hin
          show m.id < st.nextMetafieldId + 1
          omega
        · simp only [List.mem_singleton] at hin
          subst hin
          show st.nextMetafieldId < st.nextMetafieldId + 1
          omega

/-- The whole upsert loop keeps ids distinct and bounded. -/
theorem upsertLoop_ids (idx : List Metafield) (pid : Nat) :
    ∀ (kv : List (String × Option String)) (st : Catalog),
    ((mfsOf st pid).map Metafield.id).Nodup →
    (∀ m ∈ mfsOf st pid, m.id < st.nextMetafieldId) →
    (st.products.find? (fun r => r.id == pid)).isSome = true →
    ((mfsOf (Sync.upsertLoop idx pid st kv) pid).map Metafield.id).Nodup
  ∧ (∀ m ∈ mfsOf (Sync.upsertLoop idx pid st kv) pid,
      m.id < (Sync.upsertLoop idx pid st kv).nextMetafieldId)
  ∧ st.nextMetafieldId ≤ (Sync.upsertLoop idx pid st kv).nextMetafieldId
  ∧ ((Sync.upsertLoop idx pid st kv).products.find? (fun r => r.id == pid)).isSome
      = true := by
  intro kv
  induction kv with
  | nil => intro st h1 h2 h3; exact ⟨h1, h2, Nat.le_refl _, h3⟩
  | cons e rest ih =>
    intro st h1 h2 h3
    obtain ⟨g1, g2, g3, g4⟩ := upsertStep_ids idx pid st e h1 h2 h3
    obtain ⟨k1, k2, k3, k4⟩ := ih _ g1 g2 g4
    exact ⟨k1, k2, Nat.le_trans g3 k3, k4⟩

/-- `mfIdsOk` for the product a well-formed catalog serves under `pid`. -/
theorem mfIdsOk_of_wf (st : Catalog) (hwf : CatalogMfWF st) (pid : Nat) :
    ((mfsOf st pid).map Metafield.id).Nodup
  ∧ ∀ m ∈ mfsOf st pid, m.id < st.nextMetafieldId := by
  rw [mfsOf_eq]
  cases hf : st.products.find? (fun q => q.id == pid) with
  | none => simp
  | some q =>
    simp only [Option.map_some', Option.getD_some]
    exact hwf q (List.mem_of_find?_eq_some hf)

theorem wf_createdCatalog (pl : ProductPayload) (st : Catalog) (hwf : CatalogMfWF st) :
    CatalogMfWF (createdCatalog pl st) := by
  intro q hq
  rcases List.mem_append.mp hq with hin | hin
  · exact hwf q hin
  · simp only [List.mem_singleton] at hin
    subst hin
    exact ⟨List.nodup_nil, by intro m hm; simp [createdProduct] at hm⟩

theorem wf_updateProductTags (pid : Nat) (tags : String) (st : Catalog)
    (hwf : CatalogMfWF st) : CatalogMfWF (updateProductTags pid tags st) := by
  intro q hq
  obtain ⟨q1, hq1, rfl⟩ := List.mem_map.mp hq
  by_cases h : (q1.id == pid) = true
  · rw [if_pos h]
    exact hwf q1 hq1
  · rw [if_neg h]
    exact hwf q1 hq1

/-- Lookup by SKU through a variant-preserving pointwise rewrite. -/
theorem find_sku_map (st st' : Catalog) (f : Product → Product)
    (hmap : st'.products = st.products.map f)
    (hv : ∀ q, (f q).variants = q.variants) (sku : String) :
    Sync.findProductBySkuOrMetafield sku st'
      = (Sync.findProductBySkuOrMetafield sku st).map f := by
  unfold Sync.findProductBySkuOrMetafield
  rw [hmap]
  exact find?_map_pres f _ (fun a => by
    show ((f a).variants.any fun v => v.sku == sku) = _
    rw [hv a]) _

/-- The tag PUT rewrites the served tag string of `pid` when a product with
that id exists. -/
theorem productTags_update_present (pid : Nat) (tags : String) (st : Catalog)
    (hpres : (st.products.find? (fun r => r.id == pid)).isSome = true) :
    productTags (updateProductTags pid tags st) pid = some tags := by
  unfold productTags
  have hfind : (updateProductTags pid tags st).products.find? (fun r => r.id == pid)
      = (st.products.find? (fun r => r.id == pid)).map
          (fun q => if q.id == pid then { q with tags := tags } else q) :=
    find?_map_pres (fun q => if q.id == pid then { q with tags := tags } else q)
      (fun r => r.id == pid)
      (fun a => by
        dsimp only
        by_cases h : (a.id == pid) = true
        · rw [if_pos h]
        · rw [if_neg h]) st.products
  obtain ⟨q, hq⟩ := Option.isSome_iff_exists.mp hpres
  rw [hfind, hq]
  have hqid := List.find?_some hq
  simp only [Option.map_some']
  rw [if_pos hqid]

/-- Served tags through an id- and tag-preserving rewrite. -/
theorem productTags_of_map (st st' : Catalog) (f : Product → Product)
    (hmap : st'.products = st.products.map f)
    (hid : ∀ q, (f q).id = q.id) (htags : ∀ q, (f q).tags = q.tags) (pid : Nat) :
    productTags st' pid = productTags st pid := by
  unfold productTags
  rw [hmap, find?_map_pres f _ (fun a => by
    show ((f a).id == pid) = _
    rw [hid a]) _]
  cases st.products.find? (fun r => r.id == pid) with
  | none => rfl
  | some q =>
    simp only [Option.map_some', Option.some.injEq]
    exact htags q

theorem countSku_zero_of_find_none (st : Catalog) (sku : String)
    (h : Sync.findProductBySkuOrMetafield sku st = none) : countSku st sku = 0 := by
  unfold Sync.findProductBySkuOrMetafield at h
  unfold countSku
  rw [List.length_eq_zero]
  rw [List.find?_eq_none] at h
  rw [List.filter_eq_nil]
  intro a ha
  exact h a ha

theorem pres_products_eq (st st' : Catalog) (h : st'.products = st.products) (pid : Nat)
    (hp : (st.products.find? (fun r => r.id == pid)).isSome = true) :
    (st'.products.find? (fun r => r.id == pid)).isSome = true := by
  rw [h]
  exact hp

theorem pres_updateTags (pid2 : Nat) (tags : String) (st : Catalog) (pid : Nat)
    (hp : (st.products.find? (fun r => r.id == pid)).isSome = true) :
    ((updateProductTags pid2 tags st).products.find? (fun r => r.id == pid)).isSome
      = true := by
  have hfind : (updateProductTags pid2 tags st).products.find? (fun r => r.id == pid)
      = (st.products.find? (fun r => r.id == pid)).map
          (fun q => if q.id == pid2 then { q with tags := tags } else q) :=
    find?_map_pres (fun q => if q.id == pid2 then { q with tags := tags } else q)
      (fun r => r.id == pid)
      (fun a => by
        dsimp only
        by_cases h : (a.id == pid2) = true
        · rw [if_pos h]
        · rw [if_neg h]) st.products
  rw [hfind, Option.isSome_map']
  exact hp

theorem productTags_products_eq (st st' : Catalog) (h : st'.products = st.products)
    (pid : Nat) : productTags st' pid = productTags st pid := by
  unfold productTags
  rw [h]

/-- The fixed key list of the metafield map. -/
theorem kvMap_keys (item : Item) : (Sync.kvMap item).map Prod.fst
    = ["discogs.release_id", "discogs.master_id", "discogs.media_condition",
       "discogs.sleeve_condition", "discogs.notes", "discogs.catalog_number",
       "discogs.label", "discogs.format", "discogs.year", "discogs.barcode",
       "discogs.instance_id"] := rfl

theorem kvMap_keys_nodup (item : Item) : ((Sync.kvMap item).map Prod.fst).Nodup := by
  rw [kvMap_keys]
  decide

theorem kvMap_canon (item : Item) : ∀ e ∈ Sync.kvMap item,
    (splitOnDot e.1).headD "" ++ "." ++ ((splitOnDot e.1).drop 1).headD "" = e.1 := by
  intro e he
  have hk : e.1 ∈ (Sync.kvMap item).map Prod.fst := List.mem_map_of_mem Prod.fst he
  rw [kvMap_keys] at hk
  simp only [List.mem_cons, List.not_mem_nil, or_false] at hk
  rcases hk with h|h|h|h|h|h|h|h|h|h|h <;> (rw [h]; decide)

/-- The shape of a successful create (with or without the retry). -/
theorem createProduct_ok (pl : ProductPayload) (st : Catalog) (r : Product × Catalog)
    (h : createProduct pl st = .ok r) :
    r = (createdProduct pl st, createdCatalog pl st) := by
  unfold createProduct at h
  by_cases hc : (st.products.any (fun q => q.handle == pl.handle)) = true
  · rw [if_pos hc] at h
    cases h
  · rw [if_neg hc] at h
    cases h
    rfl

theorem createRetry_ok_shape (payload : ProductPayload) (st : Catalog)
    (handle sku0 : String) (pc : Product) (stc : Catalog)
    (h : Sync.createWithHandleRetry
        (fun h0 => createProduct { payload with handle := h0 } st) handle sku0
      = .ok (pc, stc)) :
    ∃ h', pc = createdProduct { payload with handle := h' } st
      ∧ stc = createdCatalog { payload with handle := h' } st := by
  unfold Sync.createWithHandleRetry at h
  dsimp only at h
  cases ha : createProduct { payload with handle := handle } st with
  | ok r =>
    rw [ha] at h
    cases h
    have hshape := createProduct_ok _ _ _ ha
    rw [Prod.ext_iff] at hshape
    exact ⟨handle, hshape.1, hshape.2⟩
  | error e =>
    rw [ha] at h
    dsimp only at h
    by_cases hmark : hasSubstr e handleTakenMarker = true
    · rw [if_pos hmark] at h
      have := createProduct_ok _ _ _ h
      rw [Prod.ext_iff] at this
      exact ⟨handle ++ "-" ++ sToLower sku0, this.1, this.2⟩
    · rw [if_neg hmark] at h
      cases h

/-- A reconcile call that finds its product by SKU takes the update path:
no product is created, the tag set is refreshed, and every non-blank field
of the metafield map is served with its trimmed value afterwards. -/
theorem ensure_second_call (cfg : Config) (item : Item) (st1 : Catalog) (p2 : Product)
    (hfind1 : Sync.findProductBySkuOrMetafield (Sync.skuOf item) st1 = some p2)
    (hnd1 : ((mfsOf st1 p2.id).map Metafield.id).Nodup)
    (hbd1 : ∀ m ∈ mfsOf st1 p2.id, m.id < st1.nextMetafieldId)
    (hpres1 : (st1.products.find? (fun r => r.id == p2.id)).isSome = true) :
    ∃ st2, Sync.ensureProductFromDiscogsItem cfg item st1 = .ok (p2, st2)
      ∧ st2.products.length = st1.products.length
      ∧ countSku st2 (Sync.skuOf item) = countSku st1 (Sync.skuOf item)
      ∧ productTags st2 p2.id = some (Sync.tagsStringOf item)
      ∧ (∀ full raw, (full, raw) ∈ Sync.kvMap item → sTrim (raw.getD "") ≠ "" →
          mfValue st2 p2.id full = some (sTrim (raw.getD ""))) := by
  have heq : Sync.ensureProductFromDiscogsItem cfg item st1
      = .ok (p2, addToCollectionByHandle cfg.collectionHandle p2.id
          (Sync.upsertProductMetafields p2.id (Sync.kvMap item)
            (updateProductTags p2.id (Sync.tagsStringOf item) st1))) := by
    simp only [Sync.ensureProductFromDiscogsItem, hfind1]
  obtain ⟨f, hfmap, hfp⟩ := upsertLoop_pointwise
    (mfsOf (updateProductTags p2.id (Sync.tagsStringOf item) st1) p2.id) p2.id
    (Sync.kvMap item) (updateProductTags p2.id (Sync.tagsStringOf item) st1)
  have hUmap : (Sync.upsertProductMetafields p2.id (Sync.kvMap item)
      (updateProductTags p2.id (Sync.tagsStringOf item) st1)).products
      = (updateProductTags p2.id (Sync.tagsStringOf item) st1).products.map f := hfmap
  refine ⟨_, heq, ?_, ?_, ?_, ?_⟩
  · rw [addToCollection_products, hUmap, List.length_map]
    show (st1.products.map _).length = _
    rw [List.length_map]
  · rw [countSku_products_eq _ _ (addToCollection_products _ _ _)]
    have c1 := countSku_of_products_map _ _ f hUmap (fun q => (hfp q).2.2.1)
      (Sync.skuOf item)
    rw [c1]
    exact countSku_of_products_map st1 _
      (fun q => if q.id == p2.id then { q with tags := Sync.tagsStringOf item } else q)
      rfl
      (fun q => by
        dsimp only
        by_cases h : (q.id == p2.id) = true
        · rw [if_pos h]
        · rw [if_neg h]) (Sync.skuOf item)
  · rw [productTags_products_eq _ _ (addToCollection_products _ _ _)]
    rw [productTags_of_map _ _ f hUmap (fun q => (hfp q).2.2.2) (fun q => (hfp q).2.1)]
    exact productTags_update_present p2.id _ st1 hpres1
  · intro full raw hm hv
    rw [mfValue_products_eq _ _ (addToCollection_products _ _ _)]
    exact upsertProductMetafields_value p2.id (Sync.kvMap item)
      (updateProductTags p2.id (Sync.tagsStringOf item) st1) full raw
      (by rw [mfsOf_updateTags]; exact hnd1)
      (by
        intro m hmm
        rw [mfsOf_updateTags] at hmm
        exact hbd1 m hmm)
      (pres_updateTags _ _ _ _ hpres1)
      (kvMap_keys_nodup item) (kvMap_canon item) hm hv

/-- Joint postcondition of `upsertProductMetafields` followed by the
optional collection linkage, as run at the end of both reconcile paths. -/
theorem first_call_facts (cfg : Config) (item : Item) (base : Catalog) (pid : Nat)
    (hnd : ((mfsOf base pid).map Metafield.id).Nodup)
    (hbd : ∀ m ∈ mfsOf base pid, m.id < base.nextMetafieldId)
    (hpres : (base.products.find? (fun r => r.id == pid)).isSome = true) :
    (∃ f : Product → Product,
        (addToCollectionByHandle cfg.collectionHandle pid
          (Sync.upsertProductMetafields pid (Sync.kvMap item) base)).products
          = base.products.map f
      ∧ ∀ q, (f q).variants = q.variants ∧ (f q).id = q.id)
  ∧ ((mfsOf (addToCollectionByHandle cfg.collectionHandle pid
        (Sync.upsertProductMetafields pid (Sync.kvMap item) base)) pid).map
      Metafield.id).Nodup
  ∧ (∀ m ∈ mfsOf (addToCollectionByHandle cfg.collectionHandle pid
        (Sync.upsertProductMetafields pid (Sync.kvMap item) base)) pid,
      m.id < (addToCollectionByHandle cfg.collectionHandle pid
        (Sync.upsertProductMetafields pid (Sync.kvMap item) base)).nextMetafieldId)
  ∧ ((addToCollectionByHandle cfg.collectionHandle pid
        (Sync.upsertProductMetafields pid (Sync.kvMap item) base)).products.find?
      (fun r => r.id == pid)).isSome = true
  ∧ (∀ full raw, (full, raw) ∈ Sync.kvMap item → sTrim (raw.getD "") ≠ "" →
      mfValue (addToCollectionByHandle cfg.collectionHandle pid
        (Sync.upsertProductMetafields pid (Sync.kvMap item) base)) pid full
        = some (sTrim (raw.getD ""))) := by
  obtain ⟨f, hfmap, hfp⟩ := upsertLoop_pointwise (mfsOf base pid) pid
    (Sync.kvMap item) base
  have hUmap : (Sync.upsertProductMetafields pid (Sync.kvMap item) base).products
      = base.products.map f := hfmap
  have hprodeq : (addToCollectionByHandle cfg.collectionHandle pid
      (Sync.upsertProductMetafields pid (Sync.kvMap item) base)).products
      = (Sync.upsertProductMetafields pid (Sync.kvMap item) base).products :=
    addToCollection_products _ _ _
  obtain ⟨k1, k2, k3, k4⟩ := upsertLoop_ids (mfsOf base pid) pid (Sync.kvMap item)
    base hnd hbd hpres
  have hmfs : mfsOf (addToCollectionByHandle cfg.collectionHandle pid
      (Sync.upsertProductMetafields pid (Sync.kvMap item) base)) pid
      = mfsOf (Sync.upsertProductMetafields pid (Sync.kvMap item) base) pid :=
    mfsOf_products_eq _ _ hprodeq pid
  refine ⟨⟨f, hprodeq.trans hUmap, fun q => ⟨(hfp q).2.2.1, (hfp q).2.2.2⟩⟩, ?_, ?_, ?_, ?_⟩
  · rw [hmfs]
    exact k1
  · intro m hm
    rw [hmfs] at hm
    rw [addToCollection_nextMetafieldId]
    exact k2 m hm
  · exact pres_products_eq _ _ hprodeq pid k4
  · intro full raw hm hv
    rw [mfValue_products_eq _ _ hprodeq]
    exact upsertProductMetafields_value pid (Sync.kvMap item) base full raw
      hnd hbd hpres (kvMap_keys_nodup item) (kvMap_canon item) hm hv

/-- C1: reconcile is idempotent.  If a run of
`ensureProductFromDiscogsItem` succeeds against a well-formed store holding
at most one product with the item's SKU, then a second run with the same
item finds that product via the SKU lookup and takes the update path: it
creates no product (the store keeps exactly one product with that SKU and
the same total product count), the found product carries the SKU, its tag
string is the freshly computed tag set, and every non-blank field of the
metafield map is served with its trimmed value, unchanged between the two
runs. -/
theorem claim_C1_reconcile_idempotent (cfg : Config) (item : Item) (st : Catalog)
    (p : Product) (st1 : Catalog)
    (hwf : CatalogMfWF st)
    (hcount : countSku st (Sync.skuOf item) ≤ 1)
    (h1 : Sync.ensureProductFromDiscogsItem cfg item st = .ok (p, st1)) :
    ∃ p2 st2,
      Sync.findProductBySkuOrMetafield (Sync.skuOf item) st1 = some p2
    ∧ Sync.ensureProductFromDiscogsItem cfg item st1 = .ok (p2, st2)
    ∧ st2.products.length = st1.products.length
    ∧ countSku st1 (Sync.skuOf item) = 1
    ∧ countSku st2 (Sync.skuOf item) = 1
    ∧ p2.variants.any (fun v => v.sku == Sync.skuOf item) = true
    ∧ productTags st2 p2.id = some (Sync.tagsStringOf item)
    ∧ (∀ full raw, (full, raw) ∈ Sync.kvMap item → sTrim (raw.getD "") ≠ "" →
        mfValue st2 p2.id full = some (sTrim (raw.getD ""))
        ∧ mfValue st1 p2.id full = mfValue st2 p2.id full) := by
  cases hf : Sync.findProductBySkuOrMetafield (Sync.skuOf item) st with
  | some ex =>
    have heq1 : Sync.ensureProductFromDiscogsItem cfg item st
        = .ok (ex, addToCollectionByHandle cfg.collectionHandle ex.id
            (Sync.upsertProductMetafields ex.id (Sync.kvMap item)
              (updateProductTags ex.id (Sync.tagsStringOf item) st))) := by
      simp only [Sync.ensureProductFromDiscogsItem, hf]
    rw [heq1] at h1
    injection h1 with hpair
    rw [Prod.ext_iff] at hpair
    obtain ⟨hpex, hst1⟩ := hpair
    subst hst1
    have hf' : st.products.find?
        (fun q => q.variants.any (fun v => v.sku == Sync.skuOf item)) = some ex := hf
    have hmemex : ex ∈ st.products := List.mem_of_find?_eq_some hf'
    have hpredex := List.find?_some hf'
    have hwfsu : CatalogMfWF (updateProductTags ex.id (Sync.tagsStringOf item) st) :=
      wf_updateProductTags _ _ _ hwf
    obtain ⟨hnd, hbd⟩ :=
      mfIdsOk_of_wf (updateProductTags ex.id (Sync.tagsStringOf item) st) hwfsu ex.id
    have hpres0 : (st.products.find? (fun r => r.id == ex.id)).isSome = true :=
      List.find?_isSome.mpr ⟨ex, hmemex, beq_self_eq_true ex.id⟩
    have hpressu : ((updateProductTags ex.id (Sync.tagsStringOf item) st).products.find?
        (fun r => r.id == ex.id)).isSome = true :=
      pres_updateTags _ _ _ _ hpres0
    obtain ⟨⟨f, hfmap, hfprops⟩, hnd1, hbd1, hpres1, hvals1⟩ :=
      first_call_facts cfg item (updateProductTags ex.id (Sync.tagsStringOf item) st)
        ex.id hnd hbd hpressu
    have hvpres : ∀ q : Product,
        ((if q.id == ex.id then { q with tags := Sync.tagsStringOf item } else q).variants)
          = q.variants := by
      intro q
      by_cases h : (q.id == ex.id) = true
      · rw [if_pos h]
      · rw [if_neg h]
    have hsumap : (updateProductTags ex.id (Sync.tagsStringOf item) st).products
        = st.products.map
            (fun q => if q.id == ex.id then { q with tags := Sync.tagsStringOf item }
              else q) := rfl
    have hfind_su : Sync.findProductBySkuOrMetafield (Sync.skuOf item)
        (updateProductTags ex.id (Sync.tagsStringOf item) st)
        = some { ex with tags := Sync.tagsStringOf item } := by
      rw [find_sku_map st _ _ hsumap hvpres, hf]
      simp only [Option.map_some', Option.some.injEq]
      rw [if_pos (beq_self_eq_true ex.id)]
    have hfind1 : Sync.findProductBySkuOrMetafield (Sync.skuOf item)
        (addToCollectionByHandle cfg.collectionHandle ex.id
          (Sync.upsertProductMetafields ex.id (Sync.kvMap item)
            (updateProductTags ex.id (Sync.tagsStringOf item) st)))
        = some (f { ex with tags := Sync.tagsStringOf item }) := by
      rw [find_sku_map _ _ f hfmap (fun q => (hfprops q).1), hfind_su]
      rfl
    have hp2id : (f { ex with tags := Sync.tagsStringOf item }).id = ex.id :=
      (hfprops _).2
    have hcnt1 : countSku (addToCollectionByHandle cfg.collectionHandle ex.id
        (Sync.upsertProductMetafields ex.id (Sync.kvMap item)
          (updateProductTags ex.id (Sync.tagsStringOf item) st))) (Sync.skuOf item)
        = 1 := by
      rw [countSku_of_products_map _ _ f hfmap (fun q => (hfprops q).1)]
      rw [countSku_of_products_map st _ _ hsumap hvpres]
      exact Nat.le_antisymm hcount (countSku_pos_of_exists st _ ⟨ex, hmemex, hpredex⟩)
    obtain ⟨st2, heq2, hlen, hcnt, htags, hvals2⟩ := ensure_second_call cfg item _ _
      hfind1 (by rw [hp2id]; exact hnd1) (by rw [hp2id]; exact hbd1)
      (by rw [hp2id]; exact hpres1)
    refine ⟨_, st2, hfind1, heq2, hlen, hcnt1, by rw [hcnt]; exact hcnt1, ?_, htags, ?_⟩
    · show ((f { ex with tags := Sync.tagsStringOf item }).variants.any
        (fun v => v.sku == Sync.skuOf item)) = true
      rw [(hfprops _).1]
      exact hpredex
    · intro full raw hm hv
      refine ⟨hvals2 full raw hm hv, ?_⟩
      rw [hvals2 full raw hm hv, hp2id]
      exact hvals1 full raw hm hv
  | none =>
    have heq1 : Sync.ensureProductFromDiscogsItem cfg item st
        = (match Sync.createWithHandleRetry
            (fun h0 => createProduct { Sync.createPayloadOf cfg item with handle := h0 } st)
            (Sync.handleOf item) (Sync.skuOf item) with
          | .error e => .error e
          | .ok (pc, stc) => .ok (pc, addToCollectionByHandle cfg.collectionHandle pc.id
              (Sync.upsertProductMetafields pc.id (Sync.kvMap item) stc))) := by
      simp only [Sync.ensureProductFromDiscogsItem, hf]
    rw [heq1] at h1
    cases hc : Sync.createWithHandleRetry
        (fun h0 => createProduct { Sync.createPayloadOf cfg item with handle := h0 } st)
        (Sync.handleOf item) (Sync.skuOf item) with
    | error e =>
      rw [hc] at h1
      exact absurd h1 (by simp)
    | ok r =>
      obtain ⟨pc, stc⟩ := r
      rw [hc] at h1
      dsimp only at h1
      injection h1 with hpair
      rw [Prod.ext_iff] at hpair
      obtain ⟨hppc, hst1⟩ := hpair
      subst hst1
      obtain ⟨h', hpc, hstc⟩ := createRetry_ok_shape _ _ _ _ _ _ hc
      subst hpc
      subst hstc
      have predpc : ((createdProduct
          { Sync.createPayloadOf cfg item with handle := h' } st).variants.any
          (fun v => v.sku == Sync.skuOf item)) = true := by
        simp [createdProduct, Sync.createPayloadOf]
      have hwfstc : CatalogMfWF (createdCatalog
          { Sync.createPayloadOf cfg item with handle := h' } st) :=
        wf_createdCatalog _ _ hwf
      obtain ⟨hnd, hbd⟩ := mfIdsOk_of_wf _ hwfstc
        (createdProduct { Sync.createPayloadOf cfg item with handle := h' } st).id
      have hprespc : ((createdCatalog
          { Sync.createPayloadOf cfg item with handle := h' } st).products.find?
          (fun r => r.id == (createdProduct
            { Sync.createPayloadOf cfg item with handle := h' } st).id)).isSome
          = true :=
        List.find?_isSome.mpr ⟨_, List.mem_append_right _ (List.mem_singleton_self _),
          beq_self_eq_true _⟩
      obtain ⟨⟨f, hfmap, hfprops⟩, hnd1, hbd1, hpres1, hvals1⟩ :=
        first_call_facts cfg item
          (createdCatalog { Sync.createPayloadOf cfg item with handle := h' } st)
          (createdProduct { Sync.createPayloadOf cfg item with handle := h' } st).id
          hnd hbd hprespc
      have hf' : st.products.find?
          (fun q => q.variants.any (fun v => v.sku == Sync.skuOf item)) = none := hf
      have hfstc : Sync.findProductBySkuOrMetafield (Sync.skuOf item)
          (createdCatalog { Sync.createPayloadOf cfg item with handle := h' } st)
          = some (createdProduct
              { Sync.createPayloadOf cfg item with handle := h' } st) := by
        show (st.products ++ [createdProduct
            { Sync.createPayloadOf cfg item with handle := h' } st]).find? _ = _
        rw [List.find?_append, hf',
          @List.find?_cons_of_pos _ (fun q => q.variants.any (fun v => v.sku == Sync.skuOf item))
            (createdProduct { Sync.createPayloadOf cfg item with handle := h' } st) [] predpc]
        rfl
      have hfind1 : Sync.findProductBySkuOrMetafield (Sync.skuOf item)
          (addToCollectionByHandle cfg.collectionHandle
            (createdProduct { Sync.createPayloadOf cfg item with handle := h' } st).id
            (Sync.upsertProductMetafields
              (createdProduct { Sync.createPayloadOf cfg item with handle := h' } st).id
              (Sync.kvMap item)
              (createdCatalog { Sync.createPayloadOf cfg item with handle := h' } st)))
          = some (f (createdProduct
              { Sync.createPayloadOf cfg item with handle := h' } st)) := by
        rw [find_sku_map _ _ f hfmap (fun q => (hfprops q).1), hfstc]
        rfl
      have hp2id : (f (createdProduct
          { Sync.createPayloadOf cfg item with handle := h' } st)).id
          = (createdProduct { Sync.createPayloadOf cfg item with handle := h' } st).id :=
        (hfprops _).2
      have hcnt1 : countSku (addToCollectionByHandle cfg.collectionHandle
          (createdProduct { Sync.createPayloadOf cfg item with handle := h' } st).id
          (Sync.upsertProductMetafields
            (createdProduct { Sync.createPayloadOf cfg item with handle := h' } st).id
            (Sync.kvMap item)
            (createdCatalog { Sync.createPayloadOf cfg item with handle := h' } st)))
          (Sync.skuOf item) = 1 := by
        rw [countSku_of_products_map _ _ f hfmap (fun q => (hfprops q).1)]
        rw [countSku_createdCatalog _ _ _ predpc]
        rw [countSku_zero_of_find_none st _ hf]
      obtain ⟨st2, heq2, hlen, hcnt, htags, hvals2⟩ := ensure_second_call cfg item _ _
        hfind1 (by rw [hp2id]; exact hnd1) (by rw [hp2id]; exact hbd1)
        (by rw [hp2id]; exact hpres1)
      refine ⟨_, st2, hfind1, heq2, hlen, hcnt1, by rw [hcnt]; exact hcnt1, ?_, htags, ?_⟩
      · show ((f (createdProduct
            { Sync.createPayloadOf cfg item with handle := h' } st)).variants.any
          (fun v => v.sku == Sync.skuOf item)) = true
        rw [(hfprops _).1]
        exact predpc
      · intro full raw hm hv
        refine ⟨hvals2 full raw hm hv, ?_⟩
        rw [hvals2 full raw hm hv, hp2id]
        exact hvals1 full raw hm hv

/-- C1 witness: reconciling the worked example against the empty store and
then reconciling it again converges to a single `DCG-42` product. -/
theorem claim_C1_reconcile_idempotent_witness :
    ∃ p2 st2,
      Sync.findProductBySkuOrMetafield (Sync.skuOf item42) st42 = some p2
    ∧ Sync.ensureProductFromDiscogsItem cfgW item42 st42 = .ok (p2, st2)
    ∧ st2.products.length = st42.products.length
    ∧ countSku st42 (Sync.skuOf item42) = 1
    ∧ countSku st2 (Sync.skuOf item42) = 1
    ∧ p2.variants.any (fun v => v.sku == Sync.skuOf item42) = true
    ∧ productTags st2 p2.id = some (Sync.tagsStringOf item42)
    ∧ (∀ full raw, (full, raw) ∈ Sync.kvMap item42 → sTrim (raw.getD "") ≠ "" →
        mfValue st2 p2.id full = some (sTrim (raw.getD ""))
        ∧ mfValue st42 p2.id full = mfValue st2 p2.id full) :=
  claim_C1_reconcile_idempotent cfgW item42 emptyCatalog p42 st42
    (fun q hq => absurd hq (by simp [emptyCatalog]))
    (by decide) rfl
